import Mathlib

set_option maxRecDepth 100000

/-!
# Verification of the libpart partition-table codec

A shallow embedding of the `libpart` Rust library (GPT and MBR partition
table codecs) together with proofs of the specification claims.

The disk/image stream is modelled as a total function `Image : Nat → Nat`
from absolute byte offsets to byte values (a block-device read inside the
device never fails; a valid image has all values `< 256`, captured by
`validImage`).  Machine integers are modelled as `Nat` with explicit
`% 2 ^ w` at the points where the Rust code can wrap (release-mode
semantics).  Fallible operations return `Except`/`Option`.
-/

/-- A byte-addressed disk image: offset to byte value. -/
def Image : Type := Nat → Nat

/-- All bytes of the image are in range. -/
def validImage (img : Image) : Prop := ∀ n, img n < 256

/-- Read `n` consecutive bytes starting at `off`. -/
def readBytes (img : Image) (off n : Nat) : List Nat :=
  (List.range n).map (fun i => img (off + i))

/-- Little-endian value of a byte list (low byte first). -/
def leToNat : List Nat → Nat
  | [] => 0
  | b :: bs => b + 256 * leToNat bs

/-- Read an `n`-byte little-endian unsigned integer at `off`
(`read_u16/u32/u64::<LittleEndian>` in the source). -/
def readLE (img : Image) (off n : Nat) : Nat :=
  leToNat (readBytes img off n)

/-- Serialize a value as `n` little-endian bytes (truncating modulo `256 ^ n`,
as the fixed-width Rust writes do). -/
def leBytes : Nat → Nat → List Nat
  | 0, _ => []
  | n + 1, v => v % 256 :: leBytes n (v / 256)

/-- Overwrite the image with the byte list `l` starting at offset `off`
(a seek followed by a write of the whole buffer). -/
def writeAt (img : Image) (off : Nat) (l : List Nat) : Image :=
  fun n => if off ≤ n ∧ n < off + l.length then l.getD (n - off) 0 else img n

/-- Change a single byte of the image. -/
def updByte (img : Image) (p v : Nat) : Image :=
  fun n => if n = p then v else img n

@[simp] theorem length_readBytes (img : Image) (off n : Nat) :
    (readBytes img off n).length = n := by
  simp [readBytes]

@[simp] theorem length_leBytes (n v : Nat) : (leBytes n v).length = n := by
  induction n generalizing v with
  | zero => rfl
  | succ n ih => simp [leBytes, ih]

theorem leToNat_leBytes (n v : Nat) : leToNat (leBytes n v) = v % 256 ^ n := by
  induction n generalizing v with
  | zero => simp [leBytes, leToNat, Nat.mod_one]
  | succ n ih =>
    simp only [leBytes, leToNat, ih]
    rw [pow_succ', Nat.mod_mul]

theorem leToNat_lt (l : List Nat) (h : ∀ b ∈ l, b < 256) :
    leToNat l < 256 ^ l.length := by
  induction l with
  | nil => simp [leToNat]
  | cons b bs ih =>
    simp only [leToNat, List.length_cons, pow_succ']
    have hb : b < 256 := h b (by simp)
    have hbs : leToNat bs < 256 ^ bs.length := ih (fun x hx => h x (by simp [hx]))
    omega

theorem readBytes_getElem (img : Image) (off n i : Nat)
    (hi : i < (readBytes img off n).length) :
    (readBytes img off n)[i] = img (off + i) := by
  simp [readBytes]

theorem readBytes_sub (img : Image) (off n k m : Nat) (h : k + m ≤ n) :
    readBytes img (off + k) m = ((readBytes img off n).drop k).take m := by
  apply List.ext_getElem
  · simp; omega
  · intro i h1 h2
    simp only [readBytes, List.getElem_take, List.getElem_drop, List.getElem_map,
      List.getElem_range]
    ring_nf

theorem readBytes_eq_of_agree (img1 img2 : Image) (off n : Nat)
    (h : ∀ i, i < n → img1 (off + i) = img2 (off + i)) :
    readBytes img1 off n = readBytes img2 off n := by
  apply List.ext_getElem
  · simp
  · intro i h1 h2
    simp only [readBytes, List.getElem_map, List.getElem_range]
    exact h i (by simpa using h1)

theorem writeAt_apply_in (img : Image) (off : Nat) (l : List Nat) (n : Nat)
    (h1 : off ≤ n) (h2 : n < off + l.length) :
    writeAt img off l n = l.getD (n - off) 0 := by
  simp [writeAt, h1, h2]

theorem writeAt_apply_out (img : Image) (off : Nat) (l : List Nat) (n : Nat)
    (h : n < off ∨ off + l.length ≤ n) :
    writeAt img off l n = img n := by
  simp only [writeAt]
  rw [if_neg]
  omega

theorem readBytes_writeAt_eq (img : Image) (off : Nat) (l : List Nat) :
    readBytes (writeAt img off l) off l.length = l := by
  apply List.ext_getElem
  · simp
  · intro i h1 h2
    simp only [readBytes, List.getElem_map, List.getElem_range]
    rw [writeAt_apply_in img off l _ (by omega) (by omega)]
    simp only [Nat.add_sub_cancel_left]
    exact List.getD_eq_getElem l 0 h2

theorem readBytes_writeAt_of_disjoint (img : Image) (off : Nat) (l : List Nat)
    (base m : Nat) (h : base + m ≤ off ∨ off + l.length ≤ base) :
    readBytes (writeAt img off l) base m = readBytes img base m := by
  apply readBytes_eq_of_agree
  intro i hi
  apply writeAt_apply_out
  omega

theorem readBytes_updByte_of_ne (img : Image) (p v base m : Nat)
    (h : p < base ∨ base + m ≤ p) :
    readBytes (updByte img p v) base m = readBytes img base m := by
  apply readBytes_eq_of_agree
  intro i hi
  simp only [updByte]
  rw [if_neg]
  omega

theorem readBytes_updByte_of_mem (img : Image) (p v base m : Nat)
    (h1 : base ≤ p) (h2 : p < base + m) :
    readBytes (updByte img p v) base m = (readBytes img base m).set (p - base) v := by
  apply List.ext_getElem
  · simp
  · intro i hi1 hi2
    simp only [readBytes, List.getElem_map, List.getElem_range]
    rw [List.getElem_set]
    by_cases hip : base + i = p
    · rw [if_pos (by omega)]
      simp [updByte, hip]
    · rw [if_neg (by omega)]
      simp only [List.getElem_map, List.getElem_range]
      simp [updByte, hip]

/-!
## CRC-32

Modelled from the spec: the source uses the external `checksum` crate's
`Crc32` (`CRC32::new().checksum(&buf)`), whose code is not part of this
repository.  The spec glossary describes it as "CRC-32: the checksum
algorithm used to validate GPT header and partition-array integrity", i.e.
the standard (IEEE 802.3, reflected, polynomial `0xEDB88320`,
initial value and final xor `0xFFFFFFFF`) CRC-32 over the byte buffer.
-/

def crcPoly : Nat := 0xEDB88320

/-- One bit round of the reflected CRC-32 update. -/
def crcRound (c : Nat) : Nat :=
  if c % 2 = 1 then (c / 2) ^^^ crcPoly else c / 2

/-- Iterate `crcRound`. -/
def crcRounds : Nat → Nat → Nat
  | 0, c => c
  | n + 1, c => crcRounds n (crcRound c)

/-- Absorb one message byte into the CRC state. -/
def crcStep (c b : Nat) : Nat := crcRounds 8 (c ^^^ b % 256)

/-- Fold the CRC state over a byte list. -/
def crcFold (c : Nat) : List Nat → Nat
  | [] => c
  | b :: bs => crcFold (crcStep c b) bs

/-- CRC-32 of a byte buffer. -/
def crc32 (l : List Nat) : Nat := crcFold 0xFFFFFFFF l ^^^ 0xFFFFFFFF

theorem crcRound_lt (c : Nat) (h : c < 2 ^ 32) : crcRound c < 2 ^ 32 := by
  unfold crcRound
  split
  · exact Nat.xor_lt_two_pow (by omega) (by norm_num [crcPoly])
  · omega

theorem crcRounds_lt (n c : Nat) (h : c < 2 ^ 32) : crcRounds n c < 2 ^ 32 := by
  induction n generalizing c with
  | zero => exact h
  | succ n ih => exact ih _ (crcRound_lt c h)

theorem crcStep_lt (c b : Nat) (h : c < 2 ^ 32) : crcStep c b < 2 ^ 32 := by
  unfold crcStep
  exact crcRounds_lt 8 _ (Nat.xor_lt_two_pow h (by have := Nat.mod_lt b (show 0 < 256 by norm_num); omega))

theorem crcFold_lt (l : List Nat) (c : Nat) (h : c < 2 ^ 32) : crcFold c l < 2 ^ 32 := by
  induction l generalizing c with
  | nil => exact h
  | cons b bs ih => exact ih _ (crcStep_lt c b h)

theorem crc32_lt (l : List Nat) : crc32 l < 2 ^ 32 := by
  unfold crc32
  exact Nat.xor_lt_two_pow (crcFold_lt l _ (by norm_num)) (by norm_num)

theorem xor_inj_left {a b c : Nat} (h : a ^^^ c = b ^^^ c) : a = b := by
  have := congrArg (· ^^^ c) h
  simpa [Nat.xor_assoc] using this

theorem testBit_ge {x k : Nat} (h : x.testBit k = true) : 2 ^ k ≤ x := by
  by_contra hlt
  rw [Nat.testBit_lt_two_pow (by omega)] at h
  exact Bool.false_ne_true h

theorem crcRound_inj {c1 c2 : Nat} (h1 : c1 < 2 ^ 32) (h2 : c2 < 2 ^ 32)
    (h : crcRound c1 = crcRound c2) : c1 = c2 := by
  unfold crcRound at h
  by_cases p1 : c1 % 2 = 1 <;> by_cases p2 : c2 % 2 = 1
  · rw [if_pos p1, if_pos p2] at h
    have := xor_inj_left h
    omega
  · rw [if_pos p1, if_neg p2] at h
    exfalso
    have hb : ((c1 / 2) ^^^ crcPoly).testBit 31 = true := by
      rw [Nat.testBit_xor]
      rw [Nat.testBit_lt_two_pow (x := c1 / 2) (by omega)]
      decide
    have := testBit_ge hb
    rw [h] at this
    omega
  · rw [if_neg p1, if_pos p2] at h
    exfalso
    have hb : ((c2 / 2) ^^^ crcPoly).testBit 31 = true := by
      rw [Nat.testBit_xor]
      rw [Nat.testBit_lt_two_pow (x := c2 / 2) (by omega)]
      decide
    have := testBit_ge hb
    rw [← h] at this
    omega
  · rw [if_neg p1, if_neg p2] at h
    omega

theorem crcRounds_inj {n : Nat} {c1 c2 : Nat} (h1 : c1 < 2 ^ 32) (h2 : c2 < 2 ^ 32)
    (h : crcRounds n c1 = crcRounds n c2) : c1 = c2 := by
  induction n generalizing c1 c2 with
  | zero => exact h
  | succ n ih =>
    exact crcRound_inj h1 h2 (ih (crcRound_lt _ h1) (crcRound_lt _ h2) h)

theorem crcStep_inj_state {c1 c2 b : Nat} (h1 : c1 < 2 ^ 32) (h2 : c2 < 2 ^ 32)
    (h : crcStep c1 b = crcStep c2 b) : c1 = c2 := by
  unfold crcStep at h
  have hx := crcRounds_inj (n := 8)
    (Nat.xor_lt_two_pow h1 (by have := Nat.mod_lt b (show 0 < 256 by norm_num); omega))
    (Nat.xor_lt_two_pow h2 (by have := Nat.mod_lt b (show 0 < 256 by norm_num); omega)) h
  exact xor_inj_left hx

theorem crcStep_ne_byte {c b1 b2 : Nat} (h1 : c < 2 ^ 32)
    (hb : b1 % 256 ≠ b2 % 256) : crcStep c b1 ≠ crcStep c b2 := by
  intro h
  unfold crcStep at h
  have hx := crcRounds_inj (n := 8)
    (Nat.xor_lt_two_pow h1 (by have := Nat.mod_lt b1 (show 0 < 256 by norm_num); omega))
    (Nat.xor_lt_two_pow h1 (by have := Nat.mod_lt b2 (show 0 < 256 by norm_num); omega)) h
  rw [Nat.xor_comm c (b1 % 256), Nat.xor_comm c (b2 % 256)] at hx
  exact hb (xor_inj_left hx)

theorem crcFold_inj_state {l : List Nat} {c1 c2 : Nat} (h1 : c1 < 2 ^ 32)
    (h2 : c2 < 2 ^ 32) (hne : c1 ≠ c2) : crcFold c1 l ≠ crcFold c2 l := by
  induction l generalizing c1 c2 with
  | nil => exact hne
  | cons b bs ih =>
    show crcFold (crcStep c1 b) bs ≠ crcFold (crcStep c2 b) bs
    exact ih (crcStep_lt _ _ h1) (crcStep_lt _ _ h2)
      (fun h => hne (crcStep_inj_state h1 h2 h))

/-- CRC-32 detects any single-byte change: folding the same state over two
lists that agree except at one position (where the byte values differ
mod 256) yields different states. -/
theorem crcFold_set_ne (l : List Nat) (c j v : Nat) (hc : c < 2 ^ 32)
    (hj : j < l.length) (hv : v % 256 ≠ l[j] % 256) :
    crcFold c (l.set j v) ≠ crcFold c l := by
  induction l generalizing c j with
  | nil => simp at hj
  | cons b bs ih =>
    cases j with
    | zero =>
      show crcFold (crcStep c v) bs ≠ crcFold (crcStep c b) bs
      exact crcFold_inj_state (crcStep_lt _ _ hc) (crcStep_lt _ _ hc)
        (crcStep_ne_byte hc (by simpa using hv))
    | succ j =>
      show crcFold (crcStep c b) (bs.set j v) ≠ crcFold (crcStep c b) bs
      exact ih _ _ (crcStep_lt _ _ hc) (by simpa using hj) (by simpa using hv)

theorem crc32_set_ne (l : List Nat) (j v : Nat) (hj : j < l.length)
    (hv : v % 256 ≠ l[j] % 256) : crc32 (l.set j v) ≠ crc32 l := by
  unfold crc32
  intro h
  exact crcFold_set_ne l 0xFFFFFFFF j v (by norm_num) hj hv (xor_inj_left h)

/-!
## Block arithmetic (`src/util.rs`)
-/

/-- `pub struct Block(pub u64)` — a disk address in blocks. -/
structure Block where
  val : Nat
deriving DecidableEq, Repr

namespace Block

/-- `Block::to_bytes`: `self.0 * sector_size` as a `u64` multiplication
(wrapping modulo `2 ^ 64` in release mode). -/
def to_bytes (b : Block) (sector_size : Nat) : Nat :=
  b.val * sector_size % 2 ^ 64

/-- `Block::from_bytes`: alignment is checked against `sector_size`, but the
quotient is taken by the hard-coded literal `512` (the divisor bug kept
deliberately).  For `sector_size = 0` the Rust `%` panics; the claims only
consider positive sector sizes. -/
def from_bytes (bytes sector_size : Nat) : Option Block :=
  if bytes % sector_size = 0 then some ⟨bytes / 512⟩ else none

/-- `Block::from_bytes_offset`. -/
def from_bytes_offset (bytes sector_size : Nat) : Block × Nat :=
  (⟨bytes / sector_size⟩, bytes % sector_size)

/-- `impl Sub for Block`: `u64` subtraction, wrapping modulo `2 ^ 64`
(release-mode semantics; debug builds would panic on underflow). -/
def sub (a b : Block) : Block :=
  ⟨(a.val + 2 ^ 64 - b.val % 2 ^ 64) % 2 ^ 64⟩

theorem sub_val_of_le (a b : Block) (hba : b.val ≤ a.val) (ha : a.val < 2 ^ 64) :
    (Block.sub a b).val = a.val - b.val := by
  unfold Block.sub
  simp only
  have hb : b.val % 2 ^ 64 = b.val := Nat.mod_eq_of_lt (by omega)
  have he : a.val + 2 ^ 64 - b.val = (a.val - b.val) + 2 ^ 64 := by omega
  rw [hb, he, Nat.add_mod_right, Nat.mod_eq_of_lt (by omega)]

theorem to_bytes_of_lt (b : Block) (s : Nat) (h : b.val * s < 2 ^ 64) :
    b.to_bytes s = b.val * s := by
  unfold to_bytes
  exact Nat.mod_eq_of_lt h

end Block

/-!
## UUID byte-order codec (`read_uuid` / `write_uuid` in `src/gpt.rs`)

`swap_endian` copies `input[i]` to `output[len-1-i]`, i.e. it reverses a
(sub-)buffer.  Both `read_uuid` and `write_uuid` first copy all 16 bytes
and then reverse the ranges `[0,4)`, `[4,6)` and `[6,8)` in the output, so
both are the same mixed-endian transform.  A UUID value is modelled as its
16 canonical bytes (`uuid::Uuid::from_bytes` accepts any 16-byte buffer;
`Uuid::nil()` is all zeros).
-/

/-- The mixed-endian transform shared by `read_uuid` and `write_uuid`:
reverse bytes `[0,4)`, `[4,6)`, `[6,8)`; keep `[8,16)` verbatim. -/
def uuid_transform (l : List Nat) : List Nat :=
  (l.take 4).reverse ++ (((l.drop 4).take 2).reverse ++
    (((l.drop 6).take 2).reverse ++ l.drop 8))

/-- `read_uuid`: disk bytes to canonical UUID bytes. -/
def read_uuid (l : List Nat) : List Nat := uuid_transform l

/-- `write_uuid`: canonical UUID bytes to disk bytes. -/
def write_uuid (l : List Nat) : List Nat := uuid_transform l

theorem length_uuid_transform (l : List Nat) (h : l.length = 16) :
    (uuid_transform l).length = 16 := by
  simp [uuid_transform, h]

theorem take_drop_recompose_uuid (l : List Nat) :
    l.take 4 ++ ((l.drop 4).take 2 ++ ((l.drop 6).take 2 ++ l.drop 8)) = l := by
  have e8 : l.drop 8 = (l.drop 6).drop 2 := by rw [List.drop_drop]
  have e6 : l.drop 6 = (l.drop 4).drop 2 := by rw [List.drop_drop]
  rw [e8, List.take_append_drop, e6, List.take_append_drop, List.take_append_drop]

theorem uuid_transform_involutive (l : List Nat) (h : l.length = 16) :
    uuid_transform (uuid_transform l) = l := by
  have hA : ((l.take 4).reverse).length = 4 := by simp [h]
  have hB : (((l.drop 4).take 2).reverse).length = 2 := by simp [h]
  have hC : (((l.drop 6).take 2).reverse).length = 2 := by simp [h]
  conv_lhs => rw [uuid_transform]
  rw [show uuid_transform l = (l.take 4).reverse ++ (((l.drop 4).take 2).reverse ++
    (((l.drop 6).take 2).reverse ++ l.drop 8)) from rfl]
  rw [List.take_left' hA, List.drop_left' hA]
  rw [List.take_left' hB]
  have hd6 : ((l.take 4).reverse ++ (((l.drop 4).take 2).reverse ++
      (((l.drop 6).take 2).reverse ++ l.drop 8))).drop 6 =
      ((l.drop 6).take 2).reverse ++ l.drop 8 := by
    rw [show (6 : Nat) = 4 + 2 from rfl, ← List.drop_drop]
    rw [List.drop_left' hA, List.drop_left' hB]
  have hd8 : ((l.take 4).reverse ++ (((l.drop 4).take 2).reverse ++
      (((l.drop 6).take 2).reverse ++ l.drop 8))).drop 8 = l.drop 8 := by
    rw [show (8 : Nat) = 6 + 2 from rfl, ← List.drop_drop, hd6, List.drop_left' hC]
  rw [hd6, hd8, List.take_left' hC]
  simp only [List.reverse_reverse]
  exact take_drop_recompose_uuid l

/-!
## GPT error taxonomy and options (`src/gpt.rs`)

`ErrorType::IOError`/`UUIDError` are unrepresentable in this embedding:
reads of the modelled image always succeed, and `Uuid::from_bytes` on an
exactly-16-byte buffer never fails.  They are kept as constructors for
completeness of the enum.
-/

inductive ErrorType where
  | NoTable
  | ChecksumError
  | InvalidVersion
  | InvalidHeader
  | IOError
  | UUIDError
  | UTF16Error
  | InvalidID
deriving DecidableEq, Repr

/-- `GPTOptions`; the Rust `block_size` is a `u16`. -/
structure GPTOptions where
  block_size : Nat
  ignore_csum : Bool
  ignore_utf16_errors : Bool
deriving DecidableEq, Repr

/-- `GPTOptions::default()`. -/
def GPTOptions.default : GPTOptions :=
  { block_size := 512, ignore_csum := false, ignore_utf16_errors := false }

/-!
## Fixed-width UTF-16 name codec

A Rust `String` is modelled as its sequence of Unicode scalar values
(`List Nat`).  `String::from_utf16` is `utf16_decode` (failing on unpaired
surrogates), `str::encode_utf16` is `utf16_encode`.
-/

/-- A Unicode scalar value (what a Rust `char` can hold). -/
def ValidScalar (c : Nat) : Prop := c < 0xD800 ∨ (0xE000 ≤ c ∧ c ≤ 0x10FFFF)

instance (c : Nat) : Decidable (ValidScalar c) := by
  unfold ValidScalar
  infer_instance

/-- `str::encode_utf16`: scalars below `0x10000` yield one code unit,
the rest a surrogate pair. -/
def utf16_encode : List Nat → List Nat
  | [] => []
  | c :: cs =>
    (if c < 0x10000 then [c]
     else [0xD800 + (c - 0x10000) / 0x400, 0xDC00 + (c - 0x10000) % 0x400]) ++
      utf16_encode cs

/-- `String::from_utf16`: fails (`none`) on an unpaired surrogate. -/
def utf16_decode : List Nat → Option (List Nat)
  | [] => some []
  | u :: rest =>
    if u < 0xD800 ∨ 0xE000 ≤ u then (utf16_decode rest).map (u :: ·)
    else if 0xDC00 ≤ u then none
    else
      match rest with
      | [] => none
      | v :: rest' =>
        if 0xDC00 ≤ v ∧ v < 0xE000 then
          (utf16_decode rest').map
            ((0x10000 + (u - 0xD800) * 0x400 + (v - 0xDC00)) :: ·)
        else none

/-- `read_utf16_le` (given the 36 code units already read from the
stream): decode, optionally tolerating invalid UTF-16, then truncate at
the first embedded NUL (`ret.find('\0')`). -/
def read_utf16_le (units : List Nat) (ignore_err : Bool) :
    Except ErrorType (List Nat) :=
  match utf16_decode units with
  | some cs => .ok (cs.takeWhile (fun c => c ≠ 0))
  | none => if ignore_err then .ok [] else .error .UTF16Error

/-- `write_utf16_le`: encode, truncate to the first 36 code units, zero-pad
to exactly 36 units, serialize each as 2 little-endian bytes. -/
def write_utf16_le (s : List Nat) : List Nat :=
  let buf := (utf16_encode s).take 36
  ((buf ++ List.replicate (36 - buf.length) 0).map (leBytes 2)).join

theorem utf16_encode_append (a b : List Nat) :
    utf16_encode (a ++ b) = utf16_encode a ++ utf16_encode b := by
  induction a with
  | nil => rfl
  | cons c cs ih => simp [utf16_encode, ih]

theorem length_write_utf16_le (s : List Nat) : (write_utf16_le s).length = 72 := by
  unfold write_utf16_le
  simp only [List.length_join, List.map_map]
  rw [List.map_congr_left (g := fun _ => 2) (by intro x hx; simp)]
  have hle : ((utf16_encode s).take 36).length ≤ 36 := by
    simp [List.length_take]
  simp only [List.map_const', List.sum_replicate, smul_eq_mul]
  simp only [List.length_append, List.length_replicate]
  omega

theorem utf16_encode_decode (us cs : List Nat) (hu : ∀ u ∈ us, u < 0x10000)
    (h : utf16_decode us = some cs) : utf16_encode cs = us := by
  induction us using utf16_decode.induct generalizing cs with
  | case1 =>
    simp only [utf16_decode, Option.some.injEq] at h
    subst h
    rfl
  | case2 u rest hbmp ih =>
    rw [utf16_decode.eq_def] at h
    simp only [] at h
    rw [if_pos hbmp] at h
    rcases Option.map_eq_some'.mp h with ⟨cs', hcs', rfl⟩
    have := ih cs' (fun x hx => hu x (by simp [hx])) hcs'
    have hub : u < 0x10000 := hu u (by simp)
    simp [utf16_encode, hub, this]
  | case3 u rest hbmp hlo =>
    rw [utf16_decode.eq_def] at h
    simp only [] at h
    rw [if_neg hbmp, if_pos hlo] at h
    exact absurd h (by simp)
  | case4 u hbmp hlo =>
    rw [utf16_decode.eq_def] at h
    simp only [] at h
    rw [if_neg hbmp, if_neg hlo] at h
    exact absurd h (by simp)
  | case5 u hbmp hlo v rest' hpair ih =>
    rw [utf16_decode.eq_def] at h
    simp only [] at h
    rw [if_neg hbmp, if_neg hlo, if_pos hpair] at h
    rcases Option.map_eq_some'.mp h with ⟨cs', hcs', rfl⟩
    have henc := ih cs' (fun x hx => hu x (by simp [hx])) hcs'
    simp only [utf16_encode, henc]
    have hcp : ¬ (0x10000 + (u - 0xD800) * 0x400 + (v - 0xDC00) < 0x10000) := by omega
    rw [if_neg hcp]
    have hv : v - 0xDC00 < 0x400 := by omega
    have e1 : (0x10000 + (u - 0xD800) * 0x400 + (v - 0xDC00) - 0x10000) / 0x400 =
        u - 0xD800 := by omega
    have e2 : (0x10000 + (u - 0xD800) * 0x400 + (v - 0xDC00) - 0x10000) % 0x400 =
        v - 0xDC00 := by omega
    rw [e1, e2]
    have e3 : 0xD800 + (u - 0xD800) = u := by omega
    have e4 : 0xDC00 + (v - 0xDC00) = v := by
      rcases hpair with ⟨h3, _⟩
      omega
    simp [e3, e4]
  | case6 u hbmp hlo v rest' hpair =>
    rw [utf16_decode.eq_def] at h
    simp only [] at h
    rw [if_neg hbmp, if_neg hlo, if_neg hpair] at h
    exact absurd h (by simp)

theorem utf16_decode_valid (us cs : List Nat) (hu : ∀ u ∈ us, u < 0x10000)
    (h : utf16_decode us = some cs) : ∀ c ∈ cs, ValidScalar c := by
  induction us using utf16_decode.induct generalizing cs with
  | case1 =>
    simp only [utf16_decode, Option.some.injEq] at h
    subst h
    simp
  | case2 u rest hbmp ih =>
    rw [utf16_decode.eq_def] at h
    simp only [] at h
    rw [if_pos hbmp] at h
    rcases Option.map_eq_some'.mp h with ⟨cs', hcs', rfl⟩
    intro c hc
    rcases List.mem_cons.mp hc with rfl | hc
    · have := hu c (by simp)
      unfold ValidScalar
      omega
    · exact ih cs' (fun x hx => hu x (by simp [hx])) hcs' c hc
  | case3 u rest hbmp hlo =>
    rw [utf16_decode.eq_def] at h
    simp only [] at h
    rw [if_neg hbmp, if_pos hlo] at h
    exact absurd h (by simp)
  | case4 u hbmp hlo =>
    rw [utf16_decode.eq_def] at h
    simp only [] at h
    rw [if_neg hbmp, if_neg hlo] at h
    exact absurd h (by simp)
  | case5 u hbmp hlo v rest' hpair ih =>
    rw [utf16_decode.eq_def] at h
    simp only [] at h
    rw [if_neg hbmp, if_neg hlo, if_pos hpair] at h
    rcases Option.map_eq_some'.mp h with ⟨cs', hcs', rfl⟩
    intro c hc
    rcases List.mem_cons.mp hc with hceq | hc
    · rw [hceq]
      unfold ValidScalar
      rcases hpair with ⟨h3, h4⟩
      right
      refine ⟨by omega, ?_⟩
      have h5 : u - 0xD800 ≤ 0x3FF := by omega
      have h6 : v - 0xDC00 ≤ 0x3FF := by omega
      omega
    · exact ih cs' (fun x hx => hu x (by simp [hx])) hcs' c hc
  | case6 u hbmp hlo v rest' hpair =>
    rw [utf16_decode.eq_def] at h
    simp only [] at h
    rw [if_neg hbmp, if_neg hlo, if_neg hpair] at h
    exact absurd h (by simp)

theorem utf16_decode_encode_append (cs rest : List Nat)
    (hv : ∀ c ∈ cs, ValidScalar c) :
    utf16_decode (utf16_encode cs ++ rest) =
      (utf16_decode rest).map (cs ++ ·) := by
  induction cs with
  | nil =>
    simp only [utf16_encode, List.nil_append]
    cases utf16_decode rest <;> simp
  | cons c cs ih =>
    have hvc : ValidScalar c := hv c (by simp)
    have ihr := ih (fun x hx => hv x (by simp [hx]))
    by_cases hc : c < 0x10000
    · have he : utf16_encode (c :: cs) ++ rest = c :: (utf16_encode cs ++ rest) := by
        simp [utf16_encode, hc]
      rw [he, utf16_decode.eq_def]
      simp only []
      rw [if_pos (by unfold ValidScalar at hvc; omega)]
      rw [ihr]
      cases utf16_decode rest <;> simp
    · have hcv : c ≤ 0x10FFFF := by
        unfold ValidScalar at hvc
        omega
      have hdivlt : (c - 0x10000) / 0x400 < 0x400 := by omega
      have hmodlt := Nat.mod_lt (c - 0x10000) (show 0 < 0x400 by norm_num)
      have he : utf16_encode (c :: cs) ++ rest =
          (0xD800 + (c - 0x10000) / 0x400) ::
            ((0xDC00 + (c - 0x10000) % 0x400) :: (utf16_encode cs ++ rest)) := by
        simp [utf16_encode, hc]
      rw [he, utf16_decode.eq_def]
      simp only []
      rw [if_neg (by omega), if_neg (by omega), if_pos (by omega)]
      rw [ihr]
      have hcp : 0x10000 + (0xD800 + (c - 0x10000) / 0x400 - 0xD800) * 0x400 +
          (0xDC00 + (c - 0x10000) % 0x400 - 0xDC00) = c := by
        have h1 : 0xD800 + (c - 0x10000) / 0x400 - 0xD800 = (c - 0x10000) / 0x400 := by
          omega
        have h2 : 0xDC00 + (c - 0x10000) % 0x400 - 0xDC00 = (c - 0x10000) % 0x400 := by
          omega
        rw [h1, h2]
        have := Nat.div_add_mod (c - 0x10000) 0x400
        omega
      rw [hcp]
      cases utf16_decode rest <;> simp

theorem utf16_decode_replicate_zero (k : Nat) :
    utf16_decode (List.replicate k 0) = some (List.replicate k 0) := by
  induction k with
  | zero => rfl
  | succ k ih =>
    rw [List.replicate_succ, utf16_decode.eq_def]
    simp only []
    rw [if_pos (by norm_num)]
    rw [ih]
    simp [List.replicate_succ]

theorem utf16_encode_unit_lt (cs : List Nat) (hv : ∀ c ∈ cs, ValidScalar c) :
    ∀ u ∈ utf16_encode cs, u < 0x10000 := by
  induction cs with
  | nil => simp [utf16_encode]
  | cons c cs ih =>
    have hvc : ValidScalar c := hv c (by simp)
    intro u hu
    simp only [utf16_encode, List.mem_append] at hu
    rcases hu with hu | hu
    · by_cases hc : c < 0x10000
      · rw [if_pos hc] at hu
        simp only [List.mem_singleton] at hu
        omega
      · rw [if_neg hc] at hu
        unfold ValidScalar at hvc
        have hcv : c ≤ 0x10FFFF := by omega
        have hmodlt := Nat.mod_lt (c - 0x10000) (show 0 < 0x400 by norm_num)
        have hdivlt : (c - 0x10000) / 0x400 < 0x400 := by omega
        simp only [List.mem_cons, List.mem_singleton, List.not_mem_nil, or_false] at hu
        rcases hu with hueq | hueq <;> rw [hueq] <;> omega
    · exact ih (fun x hx => hv x (by simp [hx])) u hu

/-!
## GPT data model and load path (`src/gpt.rs`)

The stream position of every field is the cumulative offset of the
sequential reads in `GPTTable::load`: the code seeks to `block_size` and
then reads magic(8), revision(4), header-size(4), checksum(4),
reserved(4), this-position(8), other-position(8), first-usable(8),
last-usable(8), disk UUID(16), partition-array start(8), count(4),
entry-size(4), array-checksum(4).
-/

def GPT_MAGIC : List Nat := [0x45, 0x46, 0x49, 0x20, 0x50, 0x41, 0x52, 0x54]

/-- A GPT partition entry.  The Rust `end` field is called `end_` here
(`end` is reserved in Lean); a `uuid::Uuid` is its 16 canonical bytes and
a `String` its scalar values. -/
structure PartitionEntry where
  part_type : List Nat
  part_id : List Nat
  start : Block
  end_ : Block
  flags : Nat
  name : List Nat
deriving DecidableEq, Repr

/-- `PartitionEntry::empty()` (nil UUIDs, zero blocks, empty name). -/
def PartitionEntry.empty : PartitionEntry :=
  ⟨List.replicate 16 0, List.replicate 16 0, ⟨0⟩, ⟨0⟩, 0, []⟩

structure GPTTable where
  primary_gpt : Block
  backup_gpt : Block
  first_usable : Block
  last_usable : Block
  gpt_uuid : List Nat
  partitions : List (Option PartitionEntry)
  checksum : Nat
deriving DecidableEq, Repr

/-- Read `n` consecutive little-endian `u16` values (`read_u16_buf`). -/
def readU16s (img : Image) (off n : Nat) : List Nat :=
  (List.range n).map (fun i => readLE img (off + 2 * i) 2)

/-- Zero out the stored-checksum field (bytes 16–19) of the header buffer,
as the verification step does before recomputing the CRC. -/
def zero_csum_field (l : List Nat) : List Nat :=
  l.take 16 ++ ([0, 0, 0, 0] ++ l.drop 20)

/-- Parse one 128-byte partition entry at `off`: type UUID, partition
UUID, start, end, flags, name; a nil type UUID yields an empty slot.
Note the name is decoded (and can fail) before the nil-type check. -/
def parse_entry (img : Image) (off : Nat) (ig : Bool) :
    Except ErrorType (Option PartitionEntry) :=
  let part_type := read_uuid (readBytes img off 16)
  let part_id := read_uuid (readBytes img (off + 16) 16)
  let pstart := Block.mk (readLE img (off + 32) 8)
  let pend := Block.mk (readLE img (off + 40) 8)
  let pflags := readLE img (off + 48) 8
  match read_utf16_le (readU16s img (off + 56) 36) ig with
  | .error e => .error e
  | .ok label =>
    if part_type = List.replicate 16 0 then .ok none
    else .ok (some ⟨part_type, part_id, pstart, pend, pflags, label⟩)

/-- The `for _ in 0..part_count` loop: each iteration consumes exactly
128 bytes of the stream. -/
def read_entries (img : Image) (off : Nat) (ig : Bool) :
    Nat → Except ErrorType (List (Option PartitionEntry))
  | 0 => .ok []
  | n + 1 =>
    match parse_entry img off ig with
    | .error e => .error e
    | .ok slot =>
      match read_entries img (off + 128) ig n with
      | .error e => .error e
      | .ok rest => .ok (slot :: rest)

/-- `GPTTable::exists`: seek to `block_size`, read 8 bytes, compare with
the magic.  (In the model reads always succeed, so the `Result`'s
I/O-error channel is empty.) -/
def GPTTable.exists' (img : Image) (opts : GPTOptions) : Bool :=
  decide (readBytes img opts.block_size 8 = GPT_MAGIC)

/-- `GPTTable::load`. -/
def GPTTable.load (img : Image) (opts : GPTOptions) : Except ErrorType GPTTable :=
  let bs := opts.block_size
  if readBytes img bs 8 ≠ GPT_MAGIC then .error .NoTable
  else if readBytes img (bs + 8) 4 ≠ [0x00, 0x00, 0x01, 0x00] then .error .InvalidVersion
  else
    let hlen := readLE img (bs + 12) 4
    if hlen ≠ 92 then .error .InvalidHeader
    else
      let crc := readLE img (bs + 16) 4
      let mypos := Block.mk (readLE img (bs + 24) 8)
      let otherpos := Block.mk (readLE img (bs + 32) 8)
      let first_usable := Block.mk (readLE img (bs + 40) 8)
      let last_usable := Block.mk (readLE img (bs + 48) 8)
      let uuid := read_uuid (readBytes img (bs + 56) 16)
      let part_start := Block.mk (readLE img (bs + 72) 8)
      if part_start ≠ Block.mk 2 then .error .InvalidHeader
      else
        let part_count := readLE img (bs + 80) 4
        let part_size := readLE img (bs + 84) 4
        if part_size ≠ 128 then .error .InvalidHeader
        else
          let part_checksum := readLE img (bs + 88) 4
          if opts.ignore_csum = false ∧
              crc32 (zero_csum_field (readBytes img bs hlen)) ≠ crc then
            .error .ChecksumError
          else if opts.ignore_csum = false ∧
              crc32 (readBytes img (part_start.to_bytes bs) (part_size * part_count)) ≠
                part_checksum then
            .error .ChecksumError
          else
            match read_entries img (part_start.to_bytes bs) opts.ignore_utf16_errors
                part_count with
            | .error e => .error e
            | .ok parts =>
              .ok ⟨mypos, otherpos, first_usable, last_usable, uuid, parts, crc⟩

/-!
## GPT write path
-/

/-- One serialized 128-byte entry (empty slots use `PartitionEntry.empty`,
whose serialization is all zeros). -/
def serialize_entry (p : PartitionEntry) : List Nat :=
  write_uuid p.part_type ++ (write_uuid p.part_id ++ (leBytes 8 p.start.val ++
    (leBytes 8 p.end_.val ++ (leBytes 8 p.flags ++ write_utf16_le p.name))))

/-- The serialized partition array (`part_tab` in `write_gpt`). -/
def serialize_entries (t : GPTTable) : List Nat :=
  (t.partitions.map (fun p => serialize_entry (p.getD PartitionEntry.empty))).join

/-- The 92-byte header buffer as built by `write_gpt` before the CRC is
patched in (checksum field and reserved field zero). -/
def mk_header_zero_csum (t : GPTTable) (primary : Bool) (part_start : Block)
    (part_crc : Nat) : List Nat :=
  GPT_MAGIC ++ ([0x00, 0x00, 0x01, 0x00] ++ (leBytes 4 92 ++ (leBytes 4 0 ++
    (leBytes 4 0 ++ (leBytes 8 (if primary then t.primary_gpt.val else t.backup_gpt.val) ++
    (leBytes 8 (if primary then t.backup_gpt.val else t.primary_gpt.val) ++
    (leBytes 8 t.first_usable.val ++ (leBytes 8 t.last_usable.val ++
    (write_uuid t.gpt_uuid ++ (leBytes 8 part_start.val ++
    (leBytes 4 (t.partitions.length % 2 ^ 32) ++ (leBytes 4 128 ++
      leBytes 4 part_crc))))))))))))

/-- The header with its CRC patched in at bytes 16–19 (`cur.seek(16)` then
`write_u32(hdr_crc)`). -/
def mk_header (t : GPTTable) (primary : Bool) (part_start : Block)
    (part_crc : Nat) : List Nat :=
  let hdr0 := mk_header_zero_csum t primary part_start part_crc
  hdr0.take 16 ++ (leBytes 4 (crc32 hdr0) ++ hdr0.drop 20)

/-- `GPTTable::ptable_len`: byte length of the entry array converted to
blocks; the `.expect(...)` panic on misalignment is modelled as `none`. -/
def GPTTable.ptable_len (t : GPTTable) (pcount : Nat) (opts : GPTOptions) : Option Block :=
  Block.from_bytes (pcount * 128) opts.block_size

/-- `GPTTable::write_gpt`: serialize the entry array, write it at its
block, zero the header sector, write the 92-byte header.  `none` models
the `ptable_len` panic. -/
def GPTTable.write_gpt (t : GPTTable) (img : Image) (opts : GPTOptions)
    (primary : Bool) : Option Image :=
  match t.ptable_len t.partitions.length opts with
  | none => none
  | some ptlen =>
    let mypos := if primary then t.primary_gpt else t.backup_gpt
    let part_start := if primary then Block.mk 2 else Block.sub t.backup_gpt ptlen
    let part_tab := serialize_entries t
    let hdr := mk_header t primary part_start (crc32 part_tab)
    let img1 := writeAt img (part_start.to_bytes opts.block_size) part_tab
    let img2 := writeAt img1 (mypos.to_bytes opts.block_size)
      (List.replicate opts.block_size 0)
    some (writeAt img2 (mypos.to_bytes opts.block_size) hdr)

/-- `GPTTable::write`: primary copy, then backup copy. -/
def GPTTable.write (t : GPTTable) (img : Image) (opts : GPTOptions) : Option Image :=
  match t.write_gpt img opts true with
  | none => none
  | some img1 => t.write_gpt img1 opts false

/-!
## GPT accessors and mutation
-/

/-- `GPTTable::part_count`: number of occupied slots. -/
def GPTTable.part_count (t : GPTTable) : Nat :=
  (t.partitions.filter (fun p => p.isSome)).length

/-- `GPTTable::next_id`: index of the first empty slot. -/
def GPTTable.next_id (t : GPTTable) : Option Nat :=
  t.partitions.findIdx? (fun p => p.isNone)

/-- Result of `set_partition`/`delete_partition`.  `panicked` models the
Rust panic: for an empty slot vector, `self.partitions.len() - 1`
underflows (debug: panic; release: wraps to `usize::MAX`, so the guard
passes and the out-of-bounds indexing `self.partitions[id]` panics). -/
inductive SetResult where
  | ok (t : GPTTable)
  | invalidId
  | panicked
deriving DecidableEq, Repr

/-- `GPTTable::set_partition`: guard `id > len - 1`, then store the entry. -/
def GPTTable.set_partition (t : GPTTable) (id : Nat) (part : PartitionEntry) :
    SetResult :=
  if t.partitions.length = 0 then .panicked
  else if id > t.partitions.length - 1 then .invalidId
  else .ok { t with partitions := t.partitions.set id (some part) }

/-- `GPTTable::delete_partition`: same guard, stores `None`. -/
def GPTTable.delete_partition (t : GPTTable) (id : Nat) : SetResult :=
  if t.partitions.length = 0 then .panicked
  else if id > t.partitions.length - 1 then .invalidId
  else .ok { t with partitions := t.partitions.set id none }

/-!
## MBR codec (`src/mbr.rs`)
-/

namespace mbr

/-- An MBR partition entry (`bootable`, `system_id : u8`,
`start_lba : u32`, `sector_count : u32`). -/
structure PartitionEntry where
  bootable : Bool
  system_id : Nat
  start_lba : Nat
  sector_count : Nat
deriving DecidableEq, Repr

/-- `PartitionEntry::default()`. -/
def PartitionEntry.default : PartitionEntry := ⟨false, 0, 0, 0⟩

/-- An MBR: 446 opaque bootloader bytes, 4 fixed slots, boot signature. -/
structure MBR where
  bootloader : List Nat
  partitions : List (Option PartitionEntry)
  boot_sig : Nat
deriving DecidableEq, Repr

/-- `offset_to_chs`: the degenerate CHS encoding used on write (`c`, `h`,
`s` as in the source; the `as u8` casts are `% 256`). -/
def offset_to_chs (offset : Nat) : List Nat :=
  let c := offset % 1024
  let offset := offset / 1024
  let h := offset % 256
  let offset := offset / 256
  let s := max offset 63
  [h % 256, (s ||| ((c &&& 0x0300) >>> 2)) % 256, (c &&& 0xFF) % 256]

/-- `PartitionEntry::load` at a 16-byte entry offset: boot flag is
`byte == 0x80`; CHS bytes are skipped; `system_id == 0` yields an empty
slot. -/
def PartitionEntry.load (img : Image) (off : Nat) : Option PartitionEntry :=
  let boot := img off = 0x80
  let system_id := img (off + 4)
  let start_lba := readLE img (off + 8) 4
  let sector_count := readLE img (off + 12) 4
  if system_id ≠ 0 then
    some ⟨decide boot, system_id, start_lba, sector_count⟩
  else none

/-- The 16 bytes written by `PartitionEntry::write`.  The CHS end offset
`self.sector_count + self.start_lba - 1` is `u32` arithmetic: the sum
wraps modulo `2 ^ 32` and the subtraction wraps on underflow
(release-mode semantics; a debug build would panic for the all-zero
default entry). -/
def PartitionEntry.write (p : PartitionEntry) : List Nat :=
  [if p.bootable then 0x80 else 0x00] ++
    (offset_to_chs p.start_lba ++ ([p.system_id] ++
      (offset_to_chs ((p.sector_count + p.start_lba + 2 ^ 32 - 1) % 2 ^ 32) ++
        (leBytes 4 p.start_lba ++ leBytes 4 p.sector_count))))

/-- `MBR::load`: seek to 0, read 446 bootstrap bytes, 4 entries of 16
bytes at offsets 446, 462, 478, 494, then the 2-byte signature
(little-endian) at 510. -/
def MBR.load (img : Image) : MBR :=
  { bootloader := readBytes img 0 446
    partitions := [PartitionEntry.load img 446, PartitionEntry.load img 462,
      PartitionEntry.load img 478, PartitionEntry.load img 494]
    boot_sig := readLE img 510 2 }

/-- The byte sequence `MBR::write_mbr` emits at offset 0: the bootloader
blob, the four entries (defaulted when empty), then `0x55AA` written
big-endian, i.e. the bytes `0x55, 0xAA` — regardless of `boot_sig`. -/
def MBR.write_bytes (m : MBR) : List Nat :=
  m.bootloader ++
    ((m.partitions.map (fun p => (p.getD PartitionEntry.default).write)).join ++
      [0x55, 0xAA])

/-- `MBR::write_mbr`: seek to 0 and write `write_bytes`. -/
def MBR.write_mbr (m : MBR) (img : Image) : Image :=
  writeAt img 0 m.write_bytes

/-- `MBR::partition_count`. -/
def MBR.partition_count (m : MBR) : Nat :=
  (m.partitions.filter (fun p => p.isSome)).length

end mbr

/-!
## List slicing infrastructure
-/

theorem drop_append_ge (a b : List Nat) (k : Nat) (h : a.length ≤ k) :
    (a ++ b).drop k = b.drop (k - a.length) := by
  have hk : k = a.length + (k - a.length) := by omega
  rw [hk, List.drop_append]
  congr 1
  omega

theorem length_join_uniform {α : Type} (f : α → List Nat) (k : Nat) (l : List α)
    (hk : ∀ x ∈ l, (f x).length = k) : ((l.map f).join).length = k * l.length := by
  induction l with
  | nil => simp
  | cons x xs ih =>
    simp only [List.map_cons, List.join_cons, List.length_append]
    rw [hk x (by simp), ih (fun y hy => hk y (by simp [hy]))]
    simp only [List.length_cons]
    ring

theorem join_uniform_slice {α : Type} (f : α → List Nat) (k : Nat) (l : List α)
    (hk : ∀ x ∈ l, (f x).length = k) (i : Nat) (hi : i < l.length) :
    (((l.map f).join).drop (k * i)).take k = f (l[i]) := by
  induction l generalizing i with
  | nil => simp at hi
  | cons x xs ih =>
    cases i with
    | zero =>
      simp only [List.map_cons, List.join_cons, Nat.mul_zero, List.drop_zero]
      exact List.take_left' (hk x (by simp))
    | succ i =>
      simp only [List.map_cons, List.join_cons]
      have hfx : (f x).length = k := hk x (by simp)
      have hstep : (f x ++ (xs.map f).join).drop (k * (i + 1)) =
          ((xs.map f).join).drop (k * i) := by
        rw [drop_append_ge _ _ _ (by rw [hfx]; nlinarith)]
        congr 1
        rw [hfx]
        ring_nf
        omega
      rw [hstep]
      exact ih (fun y hy => hk y (by simp [hy])) i (by simpa using hi)

theorem join_uniform_getD {α : Type} (f : α → List Nat) (k : Nat) (l : List α)
    (hk : ∀ x ∈ l, (f x).length = k) (i j : Nat) (hi : i < l.length) (hj : j < k) :
    ((l.map f).join).getD (k * i + j) 0 = (f (l[i])).getD j 0 := by
  induction l generalizing i with
  | nil => simp at hi
  | cons x xs ih =>
    have hfx : (f x).length = k := hk x (by simp)
    cases i with
    | zero =>
      simp only [List.map_cons, List.join_cons, Nat.mul_zero, Nat.zero_add]
      exact List.getD_append _ _ _ _ (by omega)
    | succ i =>
      simp only [List.map_cons, List.join_cons]
      rw [List.getD_append_right _ _ _ _ (by rw [hfx]; nlinarith)]
      rw [show k * (i + 1) + j - (f x).length = k * i + j by rw [hfx]; ring_nf; omega]
      exact ih (fun y hy => hk y (by simp [hy])) i (by simpa using hi)

/-!
## Length and shape facts about the serializers
-/

theorem length_serialize_entry (p : PartitionEntry) (h1 : p.part_type.length = 16)
    (h2 : p.part_id.length = 16) : (serialize_entry p).length = 128 := by
  unfold serialize_entry write_uuid
  simp [List.length_append, length_uuid_transform _ h1, length_uuid_transform _ h2,
    length_write_utf16_le]

theorem serialize_entry_empty : serialize_entry PartitionEntry.empty =
    List.replicate 128 0 := by decide

theorem mbr_length_entry_write (p : mbr.PartitionEntry) : p.write.length = 16 := by
  simp [mbr.PartitionEntry.write, mbr.offset_to_chs]

theorem mbr_default_write_bytes : mbr.PartitionEntry.default.write =
    [0x00, 0x00, 0x3F, 0x00, 0x00, 0xFF, 0xFF, 0xFF, 0, 0, 0, 0, 0, 0, 0, 0] := by
  decide

/-!
## Claim theorems
-/

/-- C2: for every `block_size > 0` (a positive `u16`) and every `u64`
`bytes`, `Block::from_bytes(bytes, block_size)` returns `None` exactly
when `bytes % block_size ≠ 0`, and otherwise `Some (Block (bytes / 512))`
— dividing by the literal 512 regardless of `block_size` — while
`to_bytes` multiplies by the configured block size; consequently
`to_bytes (from_bytes bytes 512, 512) = bytes` for 512-aligned `bytes`. -/
theorem block_from_to_bytes_spec (bytes bs : Nat) (hbs : 0 < bs)
    (hbs16 : bs < 2 ^ 16) (hbytes : bytes < 2 ^ 64) :
    (Block.from_bytes bytes bs = none ↔ bytes % bs ≠ 0) ∧
    (bytes % bs = 0 → Block.from_bytes bytes bs = some (Block.mk (bytes / 512))) ∧
    (∀ b : Block, b.val * bs < 2 ^ 64 → b.to_bytes bs = b.val * bs) ∧
    (bytes % 512 = 0 → ∀ b : Block, Block.from_bytes bytes 512 = some b →
      b.to_bytes 512 = bytes) := by
  refine ⟨?_, ?_, ?_, ?_⟩
  · unfold Block.from_bytes
    constructor
    · intro h
      intro hmod
      rw [if_pos hmod] at h
      exact absurd h (by simp)
    · intro h
      rw [if_neg h]
  · intro h
    unfold Block.from_bytes
    rw [if_pos h]
  · intro b hb
    exact Block.to_bytes_of_lt b bs hb
  · intro h b hb
    unfold Block.from_bytes at hb
    rw [if_pos h] at hb
    have hbv : b = Block.mk (bytes / 512) := by
      exact (Option.some.injEq _ _ ▸ hb).symm ▸ rfl
    subst hbv
    unfold Block.to_bytes
    simp only
    have he : bytes / 512 * 512 = bytes := by omega
    rw [he, Nat.mod_eq_of_lt hbytes]

/-- Witness for C2 at `bytes = 1024`, `block_size = 512`. -/
theorem block_from_to_bytes_spec_witness :
    (Block.from_bytes 1024 512 = none ↔ 1024 % 512 ≠ 0) ∧
    (1024 % 512 = 0 → Block.from_bytes 1024 512 = some (Block.mk (1024 / 512))) ∧
    (∀ b : Block, b.val * 512 < 2 ^ 64 → b.to_bytes 512 = b.val * 512) ∧
    (1024 % 512 = 0 → ∀ b : Block, Block.from_bytes 1024 512 = some b →
      b.to_bytes 512 = 1024) :=
  block_from_to_bytes_spec 1024 512 (by decide) (by decide) (by norm_num)

/-- C3: the on-disk UUID codec is an involution: the transform reverses
byte ranges `[0,4)`, `[4,6)`, `[6,8)` and fixes `[8,16)`, so `write_uuid`
after `read_uuid` reproduces the original 16 bytes and `read_uuid` after
`write_uuid` is the identity on UUIDs (nil included). -/
theorem uuid_codec_involution (l : List Nat) (h : l.length = 16) :
    write_uuid (read_uuid l) = l ∧ read_uuid (write_uuid l) = l ∧
    (read_uuid l).take 4 = (l.take 4).reverse ∧
    ((read_uuid l).drop 4).take 2 = ((l.drop 4).take 2).reverse ∧
    ((read_uuid l).drop 6).take 2 = ((l.drop 6).take 2).reverse ∧
    (read_uuid l).drop 8 = l.drop 8 := by
  have hA : ((l.take 4).reverse).length = 4 := by simp [h]
  have hB : (((l.drop 4).take 2).reverse).length = 2 := by simp [h]
  have hC : (((l.drop 6).take 2).reverse).length = 2 := by simp [h]
  have hd6 : (uuid_transform l).drop 6 =
      ((l.drop 6).take 2).reverse ++ l.drop 8 := by
    unfold uuid_transform
    rw [show (6 : Nat) = 4 + 2 from rfl, ← List.drop_drop]
    rw [List.drop_left' hA, List.drop_left' hB]
  refine ⟨uuid_transform_involutive l h, uuid_transform_involutive l h, ?_, ?_, ?_, ?_⟩
  · unfold read_uuid uuid_transform
    exact List.take_left' hA
  · unfold read_uuid uuid_transform
    rw [List.drop_left' hA]
    exact List.take_left' hB
  · show ((uuid_transform l).drop 6).take 2 = ((l.drop 6).take 2).reverse
    rw [hd6]
    exact List.take_left' hC
  · show (uuid_transform l).drop 8 = l.drop 8
    rw [show (8 : Nat) = 6 + 2 from rfl, ← List.drop_drop, hd6, List.drop_left' hC]

/-- Witness for C3 at the nil UUID (16 zero bytes). -/
theorem uuid_codec_involution_witness :
    write_uuid (read_uuid (List.replicate 16 0)) = List.replicate 16 0 ∧
    read_uuid (write_uuid (List.replicate 16 0)) = List.replicate 16 0 ∧
    (read_uuid (List.replicate 16 0)).take 4 =
      ((List.replicate 16 (0 : Nat)).take 4).reverse ∧
    ((read_uuid (List.replicate 16 0)).drop 4).take 2 =
      (((List.replicate 16 (0 : Nat)).drop 4).take 2).reverse ∧
    ((read_uuid (List.replicate 16 0)).drop 6).take 2 =
      (((List.replicate 16 (0 : Nat)).drop 6).take 2).reverse ∧
    (read_uuid (List.replicate 16 0)).drop 8 = (List.replicate 16 (0 : Nat)).drop 8 :=
  uuid_codec_involution (List.replicate 16 0) (by decide)

/-- C7: `offset_to_chs` computes `c = offset % 1024`,
`h = (offset / 1024) % 256`, `s = max (offset / 1024 / 256) 63` and stores
`buf = [h, s ||| ((c &&& 0x300) >>> 2), c &&& 0xFF]`, each byte reduced
modulo 256 by the `as u8` casts. -/
theorem offset_to_chs_formula (offset : Nat) (h : offset < 2 ^ 32) :
    mbr.offset_to_chs offset =
      [(offset / 1024 % 256) % 256,
       ((max (offset / 1024 / 256) 63) ||| ((offset % 1024 &&& 0x0300) >>> 2)) % 256,
       (offset % 1024 &&& 0xFF) % 256] := rfl

/-- Witness for C7 at `offset = 1048575`. -/
theorem offset_to_chs_formula_witness :
    mbr.offset_to_chs 1048575 =
      [(1048575 / 1024 % 256) % 256,
       ((max (1048575 / 1024 / 256) 63) ||| ((1048575 % 1024 &&& 0x0300) >>> 2)) % 256,
       (1048575 % 1024 &&& 0xFF) % 256] :=
  offset_to_chs_formula 1048575 (by decide)

/-- C10: `GPTTable::exists` answers exactly whether the 8 bytes at offset
`block_size` equal the ASCII signature `"EFI PART"`; it reads nothing else
and performs no revision, header-size or checksum validation (its result
depends only on those 8 bytes; in this embedding stream reads cannot
fail, so no error is ever produced). -/
theorem gpt_exists_signature (img : Image) (opts : GPTOptions) :
    (GPTTable.exists' img opts = true ↔
      readBytes img opts.block_size 8 = GPT_MAGIC) ∧
    (GPTTable.exists' img opts = false ↔
      readBytes img opts.block_size 8 ≠ GPT_MAGIC) ∧
    (∀ img2 : Image,
      (∀ i, i < 8 → img2 (opts.block_size + i) = img (opts.block_size + i)) →
      GPTTable.exists' img2 opts = GPTTable.exists' img opts) := by
  refine ⟨?_, ?_, ?_⟩
  · unfold GPTTable.exists'
    exact decide_eq_true_iff
  · unfold GPTTable.exists'
    constructor
    · intro hf
      exact of_decide_eq_false hf
    · intro hne
      exact decide_eq_false hne
  · intro img2 hagree
    unfold GPTTable.exists'
    rw [readBytes_eq_of_agree img2 img _ _ hagree]

/-- Witness for C10 on the all-zero image. -/
theorem gpt_exists_signature_witness :
    ((GPTTable.exists' (fun _ => 0) GPTOptions.default = true ↔
      readBytes (fun _ => 0) GPTOptions.default.block_size 8 = GPT_MAGIC) ∧
    (GPTTable.exists' (fun _ => 0) GPTOptions.default = false ↔
      readBytes (fun _ => 0) GPTOptions.default.block_size 8 ≠ GPT_MAGIC) ∧
    (∀ img2 : Image,
      (∀ i, i < 8 → img2 (GPTOptions.default.block_size + i) =
        (fun _ => (0 : Nat)) (GPTOptions.default.block_size + i)) →
      GPTTable.exists' img2 GPTOptions.default =
        GPTTable.exists' (fun _ => 0) GPTOptions.default)) :=
  gpt_exists_signature (fun _ => 0) GPTOptions.default

/-- A concrete MBR with four empty slots (as `MBR::load` would produce
from an image whose four entry slots have `system_id == 0`). -/
def mbrZero : mbr.MBR :=
  { bootloader := List.replicate 446 0
    partitions := [none, none, none, none]
    boot_sig := 0xAA55 }

/-- C5 counterexample: an empty slot does NOT serialize to sixteen zero
bytes — byte 2 of the entry (stream offset 448 for slot 0) is `0x3F`,
because `offset_to_chs` saturates the sector field to 63, and bytes 5–7
are `0xFF` from the wrapped `sector_count + start_lba - 1`. -/
theorem mbr_empty_slot_counterexample :
    (mbr.MBR.write_mbr mbrZero (fun _ => 0)) (446 + 16 * 0 + 2) = 0x3F ∧
    ¬ ((mbr.MBR.write_mbr mbrZero (fun _ => 0)) (446 + 16 * 0 + 2) = 0x00) := by
  constructor
  · decide
  · decide

theorem mbr_length_write_bytes (m : mbr.MBR) (hboot : m.bootloader.length = 446)
    (hslots : m.partitions.length = 4) : (mbr.MBR.write_bytes m).length = 512 := by
  unfold mbr.MBR.write_bytes
  rw [List.length_append, List.length_append, hboot,
    length_join_uniform _ 16 _ (fun x _ => mbr_length_entry_write _), hslots]
  rfl

/-- C5 (amended): for every MBR whose slot `i` is empty, `write_mbr`
writes for that slot the 16 bytes
`[0x00, 0x00, 0x3F, 0x00, 0x00, 0xFF, 0xFF, 0xFF, 0,0,0,0, 0,0,0,0]`
at stream offsets `446 + 16*i .. 446 + 16*i + 15`: the CHS-start encoding
of LBA 0 is `[0, 0x3F, 0]` (sector saturated to 63) and the CHS-end
encoding of the wrapped `0 + 0 - 1 = 2^32 - 1` is `[0xFF, 0xFF, 0xFF]`;
only the boot flag, system id, start LBA and sector count are zero. -/
theorem mbr_empty_slot_entry_bytes (m : mbr.MBR) (img : Image) (i j : Nat)
    (hboot : m.bootloader.length = 446) (hslots : m.partitions.length = 4)
    (hi : i < 4) (hj : j < 16) (hempty : m.partitions[i]? = some none) :
    (m.write_mbr img) (446 + 16 * i + j) =
      [0x00, 0x00, 0x3F, 0x00, 0x00, 0xFF, 0xFF, 0xFF,
        0, 0, 0, 0, 0, 0, 0, 0].getD j 0 := by
  have hlen := mbr_length_write_bytes m hboot hslots
  unfold mbr.MBR.write_mbr
  rw [writeAt_apply_in _ _ _ _ (by omega) (by rw [hlen]; omega)]
  simp only [Nat.sub_zero]
  unfold mbr.MBR.write_bytes
  rw [List.getD_append_right _ _ _ _ (by rw [hboot]; omega)]
  rw [hboot, show 446 + 16 * i + j - 446 = 16 * i + j from by omega]
  have hjoin : ((m.partitions.map
      (fun p => (p.getD mbr.PartitionEntry.default).write)).join).length = 64 := by
    rw [length_join_uniform _ 16 _ (fun x _ => mbr_length_entry_write _), hslots]
  rw [List.getD_append _ _ _ _ (by rw [hjoin]; omega)]
  have hui := join_uniform_getD (fun p => (p.getD mbr.PartitionEntry.default).write)
    16 m.partitions (fun x _ => mbr_length_entry_write _) i j (by omega) hj
  rw [hui]
  have hilen : i < m.partitions.length := by omega
  have hgi : m.partitions[i] = none := by
    have hsome : m.partitions[i]? = some (m.partitions[i]) :=
      List.getElem?_eq_getElem hilen
    rw [hsome] at hempty
    exact Option.some.inj hempty
  rw [hgi]
  simp only [Option.getD_none]
  rw [mbr_default_write_bytes]

/-- Witness for C5 (amended) on `mbrZero`, slot 0, byte 2. -/
theorem mbr_empty_slot_entry_bytes_witness :
    (mbr.MBR.write_mbr mbrZero (fun _ => 0)) (446 + 16 * 1 + 2) =
      [0x00, 0x00, 0x3F, 0x00, 0x00, 0xFF, 0xFF, 0xFF,
        0, 0, 0, 0, 0, 0, 0, 0].getD 2 0 :=
  mbr_empty_slot_entry_bytes mbrZero (fun _ => 0) 1 2 (by decide) (by decide)
    (by decide) (by decide) (by decide)

/-- C8: `write_mbr` seeks to 0 and writes the 446 bootstrap bytes
captured at load byte-for-byte, then the four 16-byte entries in slot
order, then the signature bytes `0x55, 0xAA` at offsets 510–511
(big-endian `0x55AA`), independent of the signature value read at load
(the emitted bytes do not mention `boot_sig` at all). -/
theorem mbr_write_layout (img imgw : Image) :
    (∀ k, k < 446 → (mbr.MBR.load img).write_mbr imgw k = img k) ∧
    (∀ i j, i < 4 → j < 16 →
      (mbr.MBR.load img).write_mbr imgw (446 + 16 * i + j) =
        ((((mbr.MBR.load img).partitions.getD i none).getD
          mbr.PartitionEntry.default).write).getD j 0) ∧
    ((mbr.MBR.load img).write_mbr imgw 510 = 0x55 ∧
      (mbr.MBR.load img).write_mbr imgw 511 = 0xAA) ∧
    (∀ m : mbr.MBR, ∀ s : Nat,
      mbr.MBR.write_bytes { m with boot_sig := s } = mbr.MBR.write_bytes m) := by
  have hboot : (mbr.MBR.load img).bootloader.length = 446 := by
    unfold mbr.MBR.load
    simp
  have hslots : (mbr.MBR.load img).partitions.length = 4 := by
    unfold mbr.MBR.load
    rfl
  have hlen := mbr_length_write_bytes _ hboot hslots
  have hjoin : (((mbr.MBR.load img).partitions.map
      (fun p => (p.getD mbr.PartitionEntry.default).write)).join).length = 64 := by
    rw [length_join_uniform _ 16 _ (fun x _ => mbr_length_entry_write _), hslots]
  refine ⟨?_, ?_, ⟨?_, ?_⟩, ?_⟩
  · intro k hk
    unfold mbr.MBR.write_mbr
    rw [writeAt_apply_in _ _ _ _ (by omega) (by rw [hlen]; omega)]
    simp only [Nat.sub_zero]
    unfold mbr.MBR.write_bytes
    rw [List.getD_append _ _ _ _ (by rw [hboot]; omega)]
    show (readBytes img 0 446).getD k 0 = img k
    rw [List.getD_eq_getElem _ _ (by simp; omega)]
    rw [readBytes_getElem img 0 446 k (by simpa using hk)]
    rw [Nat.zero_add]
  · intro i j hi hj
    unfold mbr.MBR.write_mbr
    rw [writeAt_apply_in _ _ _ _ (by omega) (by rw [hlen]; omega)]
    simp only [Nat.sub_zero]
    conv_lhs => unfold mbr.MBR.write_bytes
    rw [List.getD_append_right _ _ _ _ (by rw [hboot]; omega)]
    rw [hboot, show 446 + 16 * i + j - 446 = 16 * i + j from by omega]
    rw [List.getD_append _ _ _ _ (by rw [hjoin]; omega)]
    have hui := join_uniform_getD (fun p => (p.getD mbr.PartitionEntry.default).write)
      16 (mbr.MBR.load img).partitions (fun x _ => mbr_length_entry_write _) i j
      (by omega) hj
    rw [hui]
    congr 2
    exact (List.getD_eq_getElem _ _ (by omega)).symm
  · unfold mbr.MBR.write_mbr
    rw [writeAt_apply_in _ _ _ _ (by omega) (by rw [hlen]; omega)]
    simp only [Nat.sub_zero]
    unfold mbr.MBR.write_bytes
    rw [List.getD_append_right _ _ _ _ (by rw [hboot]; omega)]
    rw [List.getD_append_right _ _ _ _ (by simp [hjoin, hboot])]
    rw [hboot, hjoin]
    rfl
  · unfold mbr.MBR.write_mbr
    rw [writeAt_apply_in _ _ _ _ (by omega) (by rw [hlen]; omega)]
    simp only [Nat.sub_zero]
    unfold mbr.MBR.write_bytes
    rw [List.getD_append_right _ _ _ _ (by rw [hboot]; omega)]
    rw [List.getD_append_right _ _ _ _ (by simp [hjoin, hboot])]
    rw [hboot, hjoin]
    rfl
  · intro m s
    rfl

/-- Witness for C8 on the all-zero image. -/
theorem mbr_write_layout_witness :
    ((∀ k, k < 446 → (mbr.MBR.load (fun _ => 0)).write_mbr (fun _ => 0) k =
      (fun _ => (0 : Nat)) k) ∧
    (∀ i j, i < 4 → j < 16 →
      (mbr.MBR.load (fun _ => 0)).write_mbr (fun _ => 0) (446 + 16 * i + j) =
        ((((mbr.MBR.load (fun _ => 0)).partitions.getD i none).getD
          mbr.PartitionEntry.default).write).getD j 0) ∧
    ((mbr.MBR.load (fun _ => 0)).write_mbr (fun _ => 0) 510 = 0x55 ∧
      (mbr.MBR.load (fun _ => 0)).write_mbr (fun _ => 0) 511 = 0xAA) ∧
    (∀ m : mbr.MBR, ∀ s : Nat,
      mbr.MBR.write_bytes { m with boot_sig := s } = mbr.MBR.write_bytes m)) :=
  mbr_write_layout (fun _ => 0) (fun _ => 0)

instance {ε α : Type} [DecidableEq ε] [DecidableEq α] : DecidableEq (Except ε α) := by
  intro a b
  cases a <;> cases b <;>
    first
      | (apply isFalse; intro h; exact Except.noConfusion h)
      | (rename_i x y
         exact match decEq x y with
           | isTrue hxy => isTrue (by rw [hxy])
           | isFalse hxy => isFalse (by intro h; cases h; exact hxy rfl))

/-!
## A concrete well-formed GPT image (zero partition slots)

The stored header checksum is, by construction, the CRC-32 of the header
buffer with a zeroed checksum field, and the stored entry-array checksum
is `crc32 [] = 0` — so the image loads successfully with verification
enabled.
-/

/-- The 92 header bytes with the checksum field still zero: primary at
block 1, backup at block 2, usable range 34–100, nil disk UUID,
entry array at block 2, zero entries of size 128. -/
def hdrZeroCsum : List Nat :=
  GPT_MAGIC ++ ([0x00, 0x00, 0x01, 0x00] ++ (leBytes 4 92 ++ (leBytes 4 0 ++
    (leBytes 4 0 ++ (leBytes 8 1 ++ (leBytes 8 2 ++ (leBytes 8 34 ++
    (leBytes 8 100 ++ (List.replicate 16 0 ++ (leBytes 8 2 ++ (leBytes 4 0 ++
    (leBytes 4 128 ++ leBytes 4 0))))))))))))

/-- The header with its true CRC stored at bytes 16–19. -/
def imgGpt0Hdr : List Nat :=
  hdrZeroCsum.take 16 ++ (leBytes 4 (crc32 hdrZeroCsum) ++ hdrZeroCsum.drop 20)

/-- A disk image holding that header at block 1 (block size 512) and
zeros everywhere else. -/
def imgGpt0 : Image := writeAt (fun _ => 0) 512 imgGpt0Hdr

/-- The table `load` recovers from `imgGpt0`. -/
def tableGpt0 : GPTTable :=
  { primary_gpt := ⟨1⟩, backup_gpt := ⟨2⟩, first_usable := ⟨34⟩,
    last_usable := ⟨100⟩, gpt_uuid := List.replicate 16 0, partitions := [],
    checksum := crc32 hdrZeroCsum }



/-!
## Slices of the serialized GPT header

`hdr0drop_k`/`hdr0field_k` compute the suffixes and fields of the
unpatched header buffer `mk_header_zero_csum`; `hdrfield_k` the fields of
the patched header `mk_header`.  Generated mechanically from the chunk
layout magic(8) | revision(4) | size(4) | csum(4) | reserved(4) |
this(8) | other(8) | first(8) | last(8) | uuid(16) | array(8) | count(4)
| entrysize(4) | arraycsum(4).
-/

theorem hdr0len (t : GPTTable) (primary : Bool) (ps : Block) (pc : Nat)
    (huuid : t.gpt_uuid.length = 16) :
    (mk_header_zero_csum t primary ps pc).length = 92 := by
  unfold mk_header_zero_csum write_uuid
  simp only [List.length_append, length_leBytes]
  rw [length_uuid_transform t.gpt_uuid huuid]
  rfl

theorem hdr0drop_8 (t : GPTTable) (primary : Bool) (ps : Block) (pc : Nat)
    (huuid : t.gpt_uuid.length = 16) :
    (mk_header_zero_csum t primary ps pc).drop 8 =
      [0x00, 0x00, 0x01, 0x00] ++ (leBytes 4 92 ++ (leBytes 4 0 ++ (leBytes 4 0 ++ (leBytes 8 (if primary then t.primary_gpt.val else t.backup_gpt.val) ++ (leBytes 8 (if primary then t.backup_gpt.val else t.primary_gpt.val) ++ (leBytes 8 t.first_usable.val ++ (leBytes 8 t.last_usable.val ++ (write_uuid t.gpt_uuid ++ (leBytes 8 ps.val ++ (leBytes 4 (t.partitions.length % 2 ^ 32) ++ (leBytes 4 128 ++ (leBytes 4 pc)))))))))))) := by
  unfold mk_header_zero_csum
  exact List.drop_left' (show GPT_MAGIC.length = 8 from rfl)

theorem hdr0drop_12 (t : GPTTable) (primary : Bool) (ps : Block) (pc : Nat)
    (huuid : t.gpt_uuid.length = 16) :
    (mk_header_zero_csum t primary ps pc).drop 12 =
      leBytes 4 92 ++ (leBytes 4 0 ++ (leBytes 4 0 ++ (leBytes 8 (if primary then t.primary_gpt.val else t.backup_gpt.val) ++ (leBytes 8 (if primary then t.backup_gpt.val else t.primary_gpt.val) ++ (leBytes 8 t.first_usable.val ++ (leBytes 8 t.last_usable.val ++ (write_uuid t.gpt_uuid ++ (leBytes 8 ps.val ++ (leBytes 4 (t.partitions.length % 2 ^ 32) ++ (leBytes 4 128 ++ (leBytes 4 pc))))))))))) := by
  rw [show (12 : Nat) = 8 + 4 from rfl, ← List.drop_drop,
    hdr0drop_8 t primary ps pc huuid]
  exact List.drop_left' (rfl)

theorem hdr0drop_16 (t : GPTTable) (primary : Bool) (ps : Block) (pc : Nat)
    (huuid : t.gpt_uuid.length = 16) :
    (mk_header_zero_csum t primary ps pc).drop 16 =
      leBytes 4 0 ++ (leBytes 4 0 ++ (leBytes 8 (if primary then t.primary_gpt.val else t.backup_gpt.val) ++ (leBytes 8 (if primary then t.backup_gpt.val else t.primary_gpt.val) ++ (leBytes 8 t.first_usable.val ++ (leBytes 8 t.last_usable.val ++ (write_uuid t.gpt_uuid ++ (leBytes 8 ps.val ++ (leBytes 4 (t.partitions.length % 2 ^ 32) ++ (leBytes 4 128 ++ (leBytes 4 pc)))))))))) := by
  rw [show (16 : Nat) = 12 + 4 from rfl, ← List.drop_drop,
    hdr0drop_12 t primary ps pc huuid]
  exact List.drop_left' (length_leBytes 4 92)

theorem hdr0drop_20 (t : GPTTable) (primary : Bool) (ps : Block) (pc : Nat)
    (huuid : t.gpt_uuid.length = 16) :
    (mk_header_zero_csum t primary ps pc).drop 20 =
      leBytes 4 0 ++ (leBytes 8 (if primary then t.primary_gpt.val else t.backup_gpt.val) ++ (leBytes 8 (if primary then t.backup_gpt.val else t.primary_gpt.val) ++ (leBytes 8 t.first_usable.val ++ (leBytes 8 t.last_usable.val ++ (write_uuid t.gpt_uuid ++ (leBytes 8 ps.val ++ (leBytes 4 (t.partitions.length % 2 ^ 32) ++ (leBytes 4 128 ++ (leBytes 4 pc))))))))) := by
  rw [show (20 : Nat) = 16 + 4 from rfl, ← List.drop_drop,
    hdr0drop_16 t primary ps pc huuid]
  exact List.drop_left' (length_leBytes 4 0)

theorem hdr0drop_24 (t : GPTTable) (primary : Bool) (ps : Block) (pc : Nat)
    (huuid : t.gpt_uuid.length = 16) :
    (mk_header_zero_csum t primary ps pc).drop 24 =
      leBytes 8 (if primary then t.primary_gpt.val else t.backup_gpt.val) ++ (leBytes 8 (if primary then t.backup_gpt.val else t.primary_gpt.val) ++ (leBytes 8 t.first_usable.val ++ (leBytes 8 t.last_usable.val ++ (write_uuid t.gpt_uuid ++ (leBytes 8 ps.val ++ (leBytes 4 (t.partitions.length % 2 ^ 32) ++ (leBytes 4 128 ++ (leBytes 4 pc)))))))) := by
  rw [show (24 : Nat) = 20 + 4 from rfl, ← List.drop_drop,
    hdr0drop_20 t primary ps pc huuid]
  exact List.drop_left' (length_leBytes 4 0)

theorem hdr0drop_32 (t : GPTTable) (primary : Bool) (ps : Block) (pc : Nat)
    (huuid : t.gpt_uuid.length = 16) :
    (mk_header_zero_csum t primary ps pc).drop 32 =
      leBytes 8 (if primary then t.backup_gpt.val else t.primary_gpt.val) ++ (leBytes 8 t.first_usable.val ++ (leBytes 8 t.last_usable.val ++ (write_uuid t.gpt_uuid ++ (leBytes 8 ps.val ++ (leBytes 4 (t.partitions.length % 2 ^ 32) ++ (leBytes 4 128 ++ (leBytes 4 pc))))))) := by
  rw [show (32 : Nat) = 24 + 8 from rfl, ← List.drop_drop,
    hdr0drop_24 t primary ps pc huuid]
  exact List.drop_left' (length_leBytes 8 _)

theorem hdr0drop_40 (t : GPTTable) (primary : Bool) (ps : Block) (pc : Nat)
    (huuid : t.gpt_uuid.length = 16) :
    (mk_header_zero_csum t primary ps pc).drop 40 =
      leBytes 8 t.first_usable.val ++ (leBytes 8 t.last_usable.val ++ (write_uuid t.gpt_uuid ++ (leBytes 8 ps.val ++ (leBytes 4 (t.partitions.length % 2 ^ 32) ++ (leBytes 4 128 ++ (leBytes 4 pc)))))) := by
  rw [show (40 : Nat) = 32 + 8 from rfl, ← List.drop_drop,
    hdr0drop_32 t primary ps pc huuid]
  exact List.drop_left' (length_leBytes 8 _)

theorem hdr0drop_48 (t : GPTTable) (primary : Bool) (ps : Block) (pc : Nat)
    (huuid : t.gpt_uuid.length = 16) :
    (mk_header_zero_csum t primary ps pc).drop 48 =
      leBytes 8 t.last_usable.val ++ (write_uuid t.gpt_uuid ++ (leBytes 8 ps.val ++ (leBytes 4 (t.partitions.length % 2 ^ 32) ++ (leBytes 4 128 ++ (leBytes 4 pc))))) := by
  rw [show (48 : Nat) = 40 + 8 from rfl, ← List.drop_drop,
    hdr0drop_40 t primary ps pc huuid]
  exact List.drop_left' (length_leBytes 8 _)

theorem hdr0drop_56 (t : GPTTable) (primary : Bool) (ps : Block) (pc : Nat)
    (huuid : t.gpt_uuid.length = 16) :
    (mk_header_zero_csum t primary ps pc).drop 56 =
      write_uuid t.gpt_uuid ++ (leBytes 8 ps.val ++ (leBytes 4 (t.partitions.length % 2 ^ 32) ++ (leBytes 4 128 ++ (leBytes 4 pc)))) := by
  rw [show (56 : Nat) = 48 + 8 from rfl, ← List.drop_drop,
    hdr0drop_48 t primary ps pc huuid]
  exact List.drop_left' (length_leBytes 8 _)

theorem hdr0drop_72 (t : GPTTable) (primary : Bool) (ps : Block) (pc : Nat)
    (huuid : t.gpt_uuid.length = 16) :
    (mk_header_zero_csum t primary ps pc).drop 72 =
      leBytes 8 ps.val ++ (leBytes 4 (t.partitions.length % 2 ^ 32) ++ (leBytes 4 128 ++ (leBytes 4 pc))) := by
  rw [show (72 : Nat) = 56 + 16 from rfl, ← List.drop_drop,
    hdr0drop_56 t primary ps pc huuid]
  exact List.drop_left' (length_uuid_transform t.gpt_uuid huuid)

theorem hdr0drop_80 (t : GPTTable) (primary : Bool) (ps : Block) (pc : Nat)
    (huuid : t.gpt_uuid.length = 16) :
    (mk_header_zero_csum t primary ps pc).drop 80 =
      leBytes 4 (t.partitions.length % 2 ^ 32) ++ (leBytes 4 128 ++ (leBytes 4 pc)) := by
  rw [show (80 : Nat) = 72 + 8 from rfl, ← List.drop_drop,
    hdr0drop_72 t primary ps pc huuid]
  exact List.drop_left' (length_leBytes 8 _)

theorem hdr0drop_84 (t : GPTTable) (primary : Bool) (ps : Block) (pc : Nat)
    (huuid : t.gpt_uuid.length = 16) :
    (mk_header_zero_csum t primary ps pc).drop 84 =
      leBytes 4 128 ++ (leBytes 4 pc) := by
  rw [show (84 : Nat) = 80 + 4 from rfl, ← List.drop_drop,
    hdr0drop_80 t primary ps pc huuid]
  exact List.drop_left' (length_leBytes 4 _)

theorem hdr0drop_88 (t : GPTTable) (primary : Bool) (ps : Block) (pc : Nat)
    (huuid : t.gpt_uuid.length = 16) :
    (mk_header_zero_csum t primary ps pc).drop 88 =
      leBytes 4 pc := by
  rw [show (88 : Nat) = 84 + 4 from rfl, ← List.drop_drop,
    hdr0drop_84 t primary ps pc huuid]
  exact List.drop_left' (length_leBytes 4 128)

theorem hdr0field_0 (t : GPTTable) (primary : Bool) (ps : Block) (pc : Nat)
    (huuid : t.gpt_uuid.length = 16) :
    (mk_header_zero_csum t primary ps pc).take 8 = GPT_MAGIC := by
  unfold mk_header_zero_csum
  exact List.take_left' (show GPT_MAGIC.length = 8 from rfl)

theorem hdr0field_8 (t : GPTTable) (primary : Bool) (ps : Block) (pc : Nat)
    (huuid : t.gpt_uuid.length = 16) :
    ((mk_header_zero_csum t primary ps pc).drop 8).take 4 =
      [0x00, 0x00, 0x01, 0x00] := by
  rw [hdr0drop_8 t primary ps pc huuid]
  exact List.take_left' (rfl)

theorem hdr0field_12 (t : GPTTable) (primary : Bool) (ps : Block) (pc : Nat)
    (huuid : t.gpt_uuid.length = 16) :
    ((mk_header_zero_csum t primary ps pc).drop 12).take 4 =
      leBytes 4 92 := by
  rw [hdr0drop_12 t primary ps pc huuid]
  exact List.take_left' (length_leBytes 4 92)

theorem hdr0field_16 (t : GPTTable) (primary : Bool) (ps : Block) (pc : Nat)
    (huuid : t.gpt_uuid.length = 16) :
    ((mk_header_zero_csum t primary ps pc).drop 16).take 4 =
      leBytes 4 0 := by
  rw [hdr0drop_16 t primary ps pc huuid]
  exact List.take_left' (length_leBytes 4 0)

theorem hdr0field_20 (t : GPTTable) (primary : Bool) (ps : Block) (pc : Nat)
    (huuid : t.gpt_uuid.length = 16) :
    ((mk_header_zero_csum t primary ps pc).drop 20).take 4 =
      leBytes 4 0 := by
  rw [hdr0drop_20 t primary ps pc huuid]
  exact List.take_left' (length_leBytes 4 0)

theorem hdr0field_24 (t : GPTTable) (primary : Bool) (ps : Block) (pc : Nat)
    (huuid : t.gpt_uuid.length = 16) :
    ((mk_header_zero_csum t primary ps pc).drop 24).take 8 =
      leBytes 8 (if primary then t.primary_gpt.val else t.backup_gpt.val) := by
  rw [hdr0drop_24 t primary ps pc huuid]
  exact List.take_left' (length_leBytes 8 _)

theorem hdr0field_32 (t : GPTTable) (primary : Bool) (ps : Block) (pc : Nat)
    (huuid : t.gpt_uuid.length = 16) :
    ((mk_header_zero_csum t primary ps pc).drop 32).take 8 =
      leBytes 8 (if primary then t.backup_gpt.val else t.primary_gpt.val) := by
  rw [hdr0drop_32 t primary ps pc huuid]
  exact List.take_left' (length_leBytes 8 _)

theorem hdr0field_40 (t : GPTTable) (primary : Bool) (ps : Block) (pc : Nat)
    (huuid : t.gpt_uuid.length = 16) :
    ((mk_header_zero_csum t primary ps pc).drop 40).take 8 =
      leBytes 8 t.first_usable.val := by
  rw [hdr0drop_40 t primary ps pc huuid]
  exact List.take_left' (length_leBytes 8 _)

theorem hdr0field_48 (t : GPTTable) (primary : Bool) (ps : Block) (pc : Nat)
    (huuid : t.gpt_uuid.length = 16) :
    ((mk_header_zero_csum t primary ps pc).drop 48).take 8 =
      leBytes 8 t.last_usable.val := by
  rw [hdr0drop_48 t primary ps pc huuid]
  exact List.take_left' (length_leBytes 8 _)

theorem hdr0field_56 (t : GPTTable) (primary : Bool) (ps : Block) (pc : Nat)
    (huuid : t.gpt_uuid.length = 16) :
    ((mk_header_zero_csum t primary ps pc).drop 56).take 16 =
      write_uuid t.gpt_uuid := by
  rw [hdr0drop_56 t primary ps pc huuid]
  exact List.take_left' (length_uuid_transform t.gpt_uuid huuid)

theorem hdr0field_72 (t : GPTTable) (primary : Bool) (ps : Block) (pc : Nat)
    (huuid : t.gpt_uuid.length = 16) :
    ((mk_header_zero_csum t primary ps pc).drop 72).take 8 =
      leBytes 8 ps.val := by
  rw [hdr0drop_72 t primary ps pc huuid]
  exact List.take_left' (length_leBytes 8 _)

theorem hdr0field_80 (t : GPTTable) (primary : Bool) (ps : Block) (pc : Nat)
    (huuid : t.gpt_uuid.length = 16) :
    ((mk_header_zero_csum t primary ps pc).drop 80).take 4 =
      leBytes 4 (t.partitions.length % 2 ^ 32) := by
  rw [hdr0drop_80 t primary ps pc huuid]
  exact List.take_left' (length_leBytes 4 _)

theorem hdr0field_84 (t : GPTTable) (primary : Bool) (ps : Block) (pc : Nat)
    (huuid : t.gpt_uuid.length = 16) :
    ((mk_header_zero_csum t primary ps pc).drop 84).take 4 =
      leBytes 4 128 := by
  rw [hdr0drop_84 t primary ps pc huuid]
  exact List.take_left' (length_leBytes 4 128)

theorem hdr0field_88 (t : GPTTable) (primary : Bool) (ps : Block) (pc : Nat)
    (huuid : t.gpt_uuid.length = 16) :
    ((mk_header_zero_csum t primary ps pc).drop 88).take 4 =
      leBytes 4 pc := by
  rw [hdr0drop_88 t primary ps pc huuid]
  exact List.take_of_length_le (by rw [length_leBytes])

theorem hdrlen (t : GPTTable) (primary : Bool) (ps : Block) (pc : Nat)
    (huuid : t.gpt_uuid.length = 16) :
    (mk_header t primary ps pc).length = 92 := by
  unfold mk_header
  have h0 := hdr0len t primary ps pc huuid
  simp only [List.length_append, length_leBytes, List.length_take, List.length_drop, h0]
  omega

theorem hdrdrop_ge_20 (t : GPTTable) (primary : Bool) (ps : Block) (pc : Nat)
    (huuid : t.gpt_uuid.length = 16) (k : Nat) (hk : 20 ≤ k) :
    (mk_header t primary ps pc).drop k = (mk_header_zero_csum t primary ps pc).drop k := by
  unfold mk_header
  simp only
  have h0 := hdr0len t primary ps pc huuid
  have htk : ((mk_header_zero_csum t primary ps pc).take 16).length = 16 := by
    simp [List.length_take, h0]
  rw [show k = 16 + (k - 16) from by omega, ← List.drop_drop]
  rw [List.drop_left' htk]
  rw [show k - 16 = 4 + (k - 20) from by omega, ← List.drop_drop]
  rw [List.drop_left' (length_leBytes 4 _)]
  rw [List.drop_drop]
  congr 1
  omega

theorem hdrfield_0 (t : GPTTable) (primary : Bool) (ps : Block) (pc : Nat)
    (huuid : t.gpt_uuid.length = 16) :
    (mk_header t primary ps pc).take 8 = GPT_MAGIC := by
  unfold mk_header
  simp only
  rw [List.take_append_of_le_length (by simp [hdr0len t primary ps pc huuid])]
  rw [List.take_take]
  rw [show (8 : Nat) ⊓ 16 = 8 from rfl]
  exact hdr0field_0 t primary ps pc huuid

theorem hdrfield_mid (t : GPTTable) (primary : Bool) (ps : Block) (pc : Nat)
    (huuid : t.gpt_uuid.length = 16) (k m : Nat) (hk : k + m ≤ 16) :
    ((mk_header t primary ps pc).drop k).take m =
      ((mk_header_zero_csum t primary ps pc).drop k).take m := by
  unfold mk_header
  simp only
  have h0 := hdr0len t primary ps pc huuid
  rw [List.drop_append_of_le_length (by simp [h0]; omega)]
  rw [List.take_append_of_le_length (by simp [h0]; omega)]
  rw [List.drop_take, List.take_take]
  rw [show (m : Nat) ⊓ (16 - k) = m from by omega]

theorem hdrfield_16 (t : GPTTable) (primary : Bool) (ps : Block) (pc : Nat)
    (huuid : t.gpt_uuid.length = 16) :
    ((mk_header t primary ps pc).drop 16).take 4 =
      leBytes 4 (crc32 (mk_header_zero_csum t primary ps pc)) := by
  unfold mk_header
  simp only
  have htk : ((mk_header_zero_csum t primary ps pc).take 16).length = 16 := by
    simp [List.length_take, hdr0len t primary ps pc huuid]
  rw [List.drop_left' htk]
  exact List.take_left' (length_leBytes 4 _)

theorem hdr_zero_csum (t : GPTTable) (primary : Bool) (ps : Block) (pc : Nat)
    (huuid : t.gpt_uuid.length = 16) :
    zero_csum_field (mk_header t primary ps pc) =
      mk_header_zero_csum t primary ps pc := by
  unfold zero_csum_field
  have h16 : (mk_header t primary ps pc).take 16 =
      (mk_header_zero_csum t primary ps pc).take 16 := by
    unfold mk_header
    simp only
    rw [List.take_append_of_le_length (by simp [hdr0len t primary ps pc huuid])]
    rw [List.take_take]
    rfl
  have h20 := hdrdrop_ge_20 t primary ps pc huuid 20 (by omega)
  rw [h16, h20]
  have hc : ([(0 : Nat), 0, 0, 0] ++ (mk_header_zero_csum t primary ps pc).drop 20) =
      (mk_header_zero_csum t primary ps pc).drop 16 := by
    rw [show (20 : Nat) = 16 + 4 from rfl, ← List.drop_drop,
      hdr0drop_16 t primary ps pc huuid, List.drop_left' (length_leBytes 4 0)]
    rfl
  rw [hc, List.take_append_drop]

/-- C9: the slot-sequence length is invariant: successful
`set_partition`/`delete_partition` preserve it (and `write` takes the
table by reference, mutating nothing — in this embedding the serializers
are pure functions of an unchanged table), the serialized entry array is
exactly `128 * slots` bytes, and the header stores the slot count (as a
`u32`) in its partition-count field at bytes 80–83. -/
theorem slot_count_invariant (t : GPTTable) (e : PartitionEntry) (id : Nat)
    (huuid : t.gpt_uuid.length = 16)
    (hslots : ∀ s ∈ t.partitions, ∀ p : PartitionEntry, s = some p →
      p.part_type.length = 16 ∧ p.part_id.length = 16) :
    (∀ t', t.set_partition id e = .ok t' →
      t'.partitions.length = t.partitions.length) ∧
    (∀ t', t.delete_partition id = .ok t' →
      t'.partitions.length = t.partitions.length) ∧
    (serialize_entries t).length = 128 * t.partitions.length ∧
    (∀ primary ps pc, ((mk_header t primary ps pc).drop 80).take 4 =
      leBytes 4 (t.partitions.length % 2 ^ 32)) := by
  refine ⟨?_, ?_, ?_, ?_⟩
  · intro t' h
    unfold GPTTable.set_partition at h
    split at h
    · exact SetResult.noConfusion h
    · split at h
      · exact SetResult.noConfusion h
      · have := (SetResult.ok.injEq _ _).mp h
        subst this
        simp
  · intro t' h
    unfold GPTTable.delete_partition at h
    split at h
    · exact SetResult.noConfusion h
    · split at h
      · exact SetResult.noConfusion h
      · have := (SetResult.ok.injEq _ _).mp h
        subst this
        simp
  · unfold serialize_entries
    rw [length_join_uniform _ 128 _ ?_]
    intro s hs
    cases s with
    | none =>
      simp only [Option.getD_none]
      rw [serialize_entry_empty]
      simp
    | some p =>
      simp only [Option.getD_some]
      have := hslots (some p) hs p rfl
      exact length_serialize_entry p this.1 this.2
  · intro primary ps pc
    rw [hdrdrop_ge_20 t primary ps pc huuid 80 (by omega)]
    exact hdr0field_80 t primary ps pc huuid

/-- A sample occupied entry (non-nil type UUID). -/
def sampleEntry : PartitionEntry :=
  ⟨1 :: List.replicate 15 0, List.replicate 16 0, ⟨34⟩, ⟨35⟩, 0, []⟩

/-- A one-slot table holding `sampleEntry`. -/
def tableOne : GPTTable :=
  { primary_gpt := ⟨1⟩, backup_gpt := ⟨2⟩, first_usable := ⟨34⟩,
    last_usable := ⟨100⟩, gpt_uuid := List.replicate 16 0,
    partitions := [some sampleEntry], checksum := 0 }

/-- Witness for C9 on `tableOne`. -/
theorem slot_count_invariant_witness :
    ((∀ t', tableOne.set_partition 0 sampleEntry = .ok t' →
      t'.partitions.length = tableOne.partitions.length) ∧
    (∀ t', tableOne.delete_partition 0 = .ok t' →
      t'.partitions.length = tableOne.partitions.length) ∧
    (serialize_entries tableOne).length = 128 * tableOne.partitions.length ∧
    (∀ primary ps pc, ((mk_header tableOne primary ps pc).drop 80).take 4 =
      leBytes 4 (tableOne.partitions.length % 2 ^ 32))) :=
  slot_count_invariant tableOne sampleEntry 0 (by decide)
    (by
      intro s hs p hp
      have hs' : s = some sampleEntry := by simpa [tableOne] using hs
      subst hs'
      injection hp with h
      subst h
      exact ⟨by decide, by decide⟩)

/-- C6 (amended): for every GPTTable with at least one slot,
`set_partition`/`delete_partition` return the InvalidID error (without
panicking, leaving the table untouched) exactly when `id` is at or beyond
the slot count, and succeed below it.  (The unamended claim fails for a
zero-slot table, where `partitions.len() - 1` underflows and the calls
panic — see the counterexample.) -/
theorem set_delete_partition_invalid_id (t : GPTTable) (e : PartitionEntry)
    (id : Nat) (hne : 1 ≤ t.partitions.length) :
    (t.partitions.length ≤ id →
      t.set_partition id e = .invalidId ∧ t.delete_partition id = .invalidId) ∧
    (id < t.partitions.length →
      t.set_partition id e = .ok { t with partitions := t.partitions.set id (some e) } ∧
      t.delete_partition id = .ok { t with partitions := t.partitions.set id none }) := by
  constructor
  · intro hid
    unfold GPTTable.set_partition GPTTable.delete_partition
    rw [if_neg (by omega), if_pos (by omega), if_neg (by omega), if_pos (by omega)]
    exact ⟨rfl, rfl⟩
  · intro hid
    unfold GPTTable.set_partition GPTTable.delete_partition
    rw [if_neg (by omega), if_neg (by omega), if_neg (by omega), if_neg (by omega)]
    exact ⟨rfl, rfl⟩

/-- Witness for C6 (amended) on `tableOne` with the out-of-range id 5. -/
theorem set_delete_partition_invalid_id_witness :
    ((tableOne.partitions.length ≤ 5 →
      tableOne.set_partition 5 sampleEntry = .invalidId ∧
      tableOne.delete_partition 5 = .invalidId) ∧
    (5 < tableOne.partitions.length →
      tableOne.set_partition 5 sampleEntry =
        .ok { tableOne with partitions := tableOne.partitions.set 5 (some sampleEntry) } ∧
      tableOne.delete_partition 5 =
        .ok { tableOne with partitions := tableOne.partitions.set 5 none })) :=
  set_delete_partition_invalid_id tableOne sampleEntry 5 (by decide)

/-!
## Well-formedness of loaded tables
-/

/-- Shape invariants every entry produced by `parse_entry` satisfies. -/
def EntryWF (e : PartitionEntry) : Prop :=
  e.part_type.length = 16 ∧ e.part_type ≠ List.replicate 16 0 ∧
  e.part_id.length = 16 ∧
  e.start.val < 2 ^ 64 ∧ e.end_.val < 2 ^ 64 ∧ e.flags < 2 ^ 64 ∧
  (∀ c ∈ e.name, ValidScalar c) ∧ (∀ c ∈ e.name, c ≠ 0) ∧
  (utf16_encode e.name).length ≤ 36

def SlotWF : Option PartitionEntry → Prop
  | none => True
  | some e => EntryWF e

/-- Shape invariants of every table produced by `load`. -/
def TableWF (t : GPTTable) : Prop :=
  t.primary_gpt.val < 2 ^ 64 ∧ t.backup_gpt.val < 2 ^ 64 ∧
  t.first_usable.val < 2 ^ 64 ∧ t.last_usable.val < 2 ^ 64 ∧
  t.gpt_uuid.length = 16 ∧ t.partitions.length < 2 ^ 32 ∧
  ∀ s ∈ t.partitions, SlotWF s

theorem readLE_lt (img : Image) (off n : Nat) (hv : validImage img) :
    readLE img off n < 256 ^ n := by
  unfold readLE
  have h := leToNat_lt (readBytes img off n) ?_
  · rwa [length_readBytes] at h
  · intro b hb
    unfold readBytes at hb
    rcases List.mem_map.mp hb with ⟨i, _, rfl⟩
    exact hv _

theorem readU16s_lt (img : Image) (off n : Nat) (hv : validImage img) :
    ∀ u ∈ readU16s img off n, u < 0x10000 := by
  intro u hu
  unfold readU16s at hu
  rcases List.mem_map.mp hu with ⟨i, _, rfl⟩
  have := readLE_lt img (off + 2 * i) 2 hv
  omega

theorem read_utf16_le_ok_inv (units : List Nat) (ig : Bool) (label : List Nat)
    (h : read_utf16_le units ig = .ok label) :
    (∃ cs, utf16_decode units = some cs ∧
      label = cs.takeWhile (fun c => c ≠ 0)) ∨
    (utf16_decode units = none ∧ ig = true ∧ label = []) := by
  unfold read_utf16_le at h
  split at h
  · rename_i cs hd
    left
    injection h with h2
    exact ⟨cs, hd, h2.symm⟩
  · rename_i hd
    right
    split at h
    · rename_i hig
      injection h with h2
      exact ⟨hd, hig, h2.symm⟩
    · exact Except.noConfusion h

theorem parse_entry_ok_inv (img : Image) (off : Nat) (ig : Bool)
    (slot : Option PartitionEntry)
    (h : parse_entry img off ig = .ok slot) :
    ∃ label, read_utf16_le (readU16s img (off + 56) 36) ig = .ok label ∧
      ((read_uuid (readBytes img off 16) = List.replicate 16 0 ∧ slot = none) ∨
       (read_uuid (readBytes img off 16) ≠ List.replicate 16 0 ∧
        slot = some ⟨read_uuid (readBytes img off 16),
          read_uuid (readBytes img (off + 16) 16),
          Block.mk (readLE img (off + 32) 8), Block.mk (readLE img (off + 40) 8),
          readLE img (off + 48) 8, label⟩)) := by
  unfold parse_entry at h
  simp only at h
  split at h
  · exact Except.noConfusion h
  · rename_i label hl
    refine ⟨label, hl, ?_⟩
    split at h
    · rename_i hnil
      injection h with h2
      exact Or.inl ⟨hnil, h2.symm⟩
    · rename_i hnil
      injection h with h2
      exact Or.inr ⟨hnil, h2.symm⟩

theorem name_wf_of_read_utf16_le (units : List Nat) (ig : Bool) (label : List Nat)
    (hu16 : ∀ u ∈ units, u < 0x10000) (hlen : units.length = 36)
    (h : read_utf16_le units ig = .ok label) :
    (∀ c ∈ label, ValidScalar c) ∧ (∀ c ∈ label, c ≠ 0) ∧
    (utf16_encode label).length ≤ 36 := by
  rcases read_utf16_le_ok_inv units ig label h with ⟨cs, hd, rfl⟩ | ⟨_, _, rfl⟩
  · have hvalid := utf16_decode_valid _ _ hu16 hd
    have henc := utf16_encode_decode _ _ hu16 hd
    refine ⟨?_, ?_, ?_⟩
    · intro c hc
      exact hvalid c ((cs.takeWhile_prefix _).mem hc)
    · intro c hc
      have := List.mem_takeWhile_imp hc
      simpa using this
    · have hsplit := List.takeWhile_append_dropWhile
        (p := fun c => decide (c ≠ 0)) (l := cs)
      have hlen36 : (utf16_encode cs).length = 36 := by rw [henc, hlen]
      calc (utf16_encode (cs.takeWhile (fun c => c ≠ 0))).length
          ≤ (utf16_encode (cs.takeWhile (fun c => c ≠ 0))).length +
            (utf16_encode (cs.dropWhile (fun c => c ≠ 0))).length := by omega
        _ = (utf16_encode cs).length := by
            rw [← List.length_append, ← utf16_encode_append, hsplit]
        _ = 36 := hlen36
  · exact ⟨by simp, by simp, by simp [utf16_encode]⟩

theorem parse_entry_wf (img : Image) (off : Nat) (ig : Bool)
    (slot : Option PartitionEntry) (hv : validImage img)
    (h : parse_entry img off ig = .ok slot) : SlotWF slot := by
  rcases parse_entry_ok_inv img off ig slot h with ⟨label, hl, hcase⟩
  rcases hcase with ⟨_, rfl⟩ | ⟨hnil, rfl⟩
  · trivial
  · have hname := name_wf_of_read_utf16_le _ ig label
      (readU16s_lt img (off + 56) 36 hv) (by simp [readU16s]) hl
    refine ⟨?_, hnil, ?_, ?_, ?_, ?_, hname.1, hname.2.1, hname.2.2⟩
    · exact length_uuid_transform _ (by simp)
    · exact length_uuid_transform _ (by simp)
    · have := readLE_lt img (off + 32) 8 hv
      simp only
      omega
    · have := readLE_lt img (off + 40) 8 hv
      simp only
      omega
    · have := readLE_lt img (off + 48) 8 hv
      simp only
      omega

theorem load_ok_inv (img : Image) (opts : GPTOptions) (t : GPTTable)
    (h : GPTTable.load img opts = .ok t) :
    readBytes img opts.block_size 8 = GPT_MAGIC ∧
    readBytes img (opts.block_size + 8) 4 = [0x00, 0x00, 0x01, 0x00] ∧
    readLE img (opts.block_size + 12) 4 = 92 ∧
    readLE img (opts.block_size + 72) 8 = 2 ∧
    readLE img (opts.block_size + 84) 4 = 128 ∧
    (opts.ignore_csum = false →
      crc32 (zero_csum_field (readBytes img opts.block_size 92)) =
        readLE img (opts.block_size + 16) 4 ∧
      crc32 (readBytes img ((Block.mk 2).to_bytes opts.block_size)
        (128 * readLE img (opts.block_size + 80) 4)) =
          readLE img (opts.block_size + 88) 4) ∧
    read_entries img ((Block.mk 2).to_bytes opts.block_size)
      opts.ignore_utf16_errors (readLE img (opts.block_size + 80) 4) =
        .ok t.partitions ∧
    t = { primary_gpt := ⟨readLE img (opts.block_size + 24) 8⟩,
          backup_gpt := ⟨readLE img (opts.block_size + 32) 8⟩,
          first_usable := ⟨readLE img (opts.block_size + 40) 8⟩,
          last_usable := ⟨readLE img (opts.block_size + 48) 8⟩,
          gpt_uuid := read_uuid (readBytes img (opts.block_size + 56) 16),
          partitions := t.partitions,
          checksum := readLE img (opts.block_size + 16) 4 } := by
  unfold GPTTable.load at h
  simp only at h
  split at h
  · exact Except.noConfusion h
  · rename_i hmagic
    split at h
    · exact Except.noConfusion h
    · rename_i hrev
      split at h
      · exact Except.noConfusion h
      · rename_i hlen
        split at h
        · exact Except.noConfusion h
        · rename_i hps
          split at h
          · exact Except.noConfusion h
          · rename_i hsize
            rw [not_not] at hmagic hrev hlen hps hsize
            have hlen92 : readLE img (opts.block_size + 12) 4 = 92 := hlen
            have hps2 : readLE img (opts.block_size + 72) 8 = 2 := by
              have := (Block.mk.injEq _ _).mp hps
              exact this
            have hsz : readLE img (opts.block_size + 84) 4 = 128 := hsize
            rw [hlen92, hps2, hsz] at h
            split at h
            · exact Except.noConfusion h
            · rename_i hcs1
              split at h
              · exact Except.noConfusion h
              · rename_i hcs2
                split at h
                · exact Except.noConfusion h
                · rename_i parts hre
                  injection h with h2
                  refine ⟨hmagic, hrev, hlen92, hps2, hsz, ?_, ?_, ?_⟩
                  · intro hic
                    rw [hic] at hcs1 hcs2
                    simp only [true_and, not_not] at hcs1 hcs2
                    exact ⟨hcs1, hcs2⟩
                  · rw [← h2]
                    exact hre
                  · rw [← h2]
theorem serEntdrop_16 (p : PartitionEntry) (h1 : p.part_type.length = 16)
    (h2 : p.part_id.length = 16) :
    (serialize_entry p).drop 16 =
      write_uuid p.part_id ++ (leBytes 8 p.start.val ++ (leBytes 8 p.end_.val ++ (leBytes 8 p.flags ++ (write_utf16_le p.name)))) := by
  unfold serialize_entry
  exact List.drop_left' (length_uuid_transform p.part_type h1)

theorem serEntdrop_32 (p : PartitionEntry) (h1 : p.part_type.length = 16)
    (h2 : p.part_id.length = 16) :
    (serialize_entry p).drop 32 =
      leBytes 8 p.start.val ++ (leBytes 8 p.end_.val ++ (leBytes 8 p.flags ++ (write_utf16_le p.name))) := by
  rw [show (32 : Nat) = 16 + 16 from rfl, ← List.drop_drop,
    serEntdrop_16 p h1 h2]
  exact List.drop_left' (length_uuid_transform p.part_id h2)

theorem serEntdrop_40 (p : PartitionEntry) (h1 : p.part_type.length = 16)
    (h2 : p.part_id.length = 16) :
    (serialize_entry p).drop 40 =
      leBytes 8 p.end_.val ++ (leBytes 8 p.flags ++ (write_utf16_le p.name)) := by
  rw [show (40 : Nat) = 32 + 8 from rfl, ← List.drop_drop,
    serEntdrop_32 p h1 h2]
  exact List.drop_left' (length_leBytes 8 _)

theorem serEntdrop_48 (p : PartitionEntry) (h1 : p.part_type.length = 16)
    (h2 : p.part_id.length = 16) :
    (serialize_entry p).drop 48 =
      leBytes 8 p.flags ++ (write_utf16_le p.name) := by
  rw [show (48 : Nat) = 40 + 8 from rfl, ← List.drop_drop,
    serEntdrop_40 p h1 h2]
  exact List.drop_left' (length_leBytes 8 _)

theorem serEntdrop_56 (p : PartitionEntry) (h1 : p.part_type.length = 16)
    (h2 : p.part_id.length = 16) :
    (serialize_entry p).drop 56 =
      write_utf16_le p.name := by
  rw [show (56 : Nat) = 48 + 8 from rfl, ← List.drop_drop,
    serEntdrop_48 p h1 h2]
  exact List.drop_left' (length_leBytes 8 _)

theorem serEntfield_0 (p : PartitionEntry) (h1 : p.part_type.length = 16)
    (h2 : p.part_id.length = 16) :
    (serialize_entry p).take 16 = write_uuid p.part_type := by
  unfold serialize_entry
  exact List.take_left' (length_uuid_transform p.part_type h1)

theorem serEntfield_16 (p : PartitionEntry) (h1 : p.part_type.length = 16)
    (h2 : p.part_id.length = 16) :
    ((serialize_entry p).drop 16).take 16 =
      write_uuid p.part_id := by
  rw [serEntdrop_16 p h1 h2]
  exact List.take_left' (length_uuid_transform p.part_id h2)

theorem serEntfield_32 (p : PartitionEntry) (h1 : p.part_type.length = 16)
    (h2 : p.part_id.length = 16) :
    ((serialize_entry p).drop 32).take 8 =
      leBytes 8 p.start.val := by
  rw [serEntdrop_32 p h1 h2]
  exact List.take_left' (length_leBytes 8 _)

theorem serEntfield_40 (p : PartitionEntry) (h1 : p.part_type.length = 16)
    (h2 : p.part_id.length = 16) :
    ((serialize_entry p).drop 40).take 8 =
      leBytes 8 p.end_.val := by
  rw [serEntdrop_40 p h1 h2]
  exact List.take_left' (length_leBytes 8 _)

theorem serEntfield_48 (p : PartitionEntry) (h1 : p.part_type.length = 16)
    (h2 : p.part_id.length = 16) :
    ((serialize_entry p).drop 48).take 8 =
      leBytes 8 p.flags := by
  rw [serEntdrop_48 p h1 h2]
  exact List.take_left' (length_leBytes 8 _)

theorem serEntfield_56 (p : PartitionEntry) (h1 : p.part_type.length = 16)
    (h2 : p.part_id.length = 16) :
    ((serialize_entry p).drop 56).take 72 =
      write_utf16_le p.name := by
  rw [serEntdrop_56 p h1 h2]
  exact List.take_of_length_le (by rw [length_write_utf16_le p.name])

/-!
## Reading back a serialized name
-/

/-- The 36 padded UTF-16 code units `write_utf16_le` emits (`buf2` in the
source: the first 36 encoded units, zero-padded). -/
def utf16_units (s : List Nat) : List Nat :=
  (utf16_encode s).take 36 ++
    List.replicate (36 - ((utf16_encode s).take 36).length) 0

theorem write_utf16_le_eq_units (s : List Nat) :
    write_utf16_le s = ((utf16_units s).map (leBytes 2)).join := rfl

theorem length_utf16_units (s : List Nat) : (utf16_units s).length = 36 := by
  unfold utf16_units
  simp only [List.length_append, List.length_replicate, List.length_take]
  omega

theorem utf16_units_lt (s : List Nat) (hval : ∀ c ∈ s, ValidScalar c) :
    ∀ u ∈ utf16_units s, u < 0x10000 := by
  intro u hu
  unfold utf16_units at hu
  rcases List.mem_append.mp hu with hu | hu
  · exact utf16_encode_unit_lt s hval u ((List.take_prefix _ _).mem hu)
  · rw [List.eq_of_mem_replicate hu]
    norm_num

theorem takeWhile_append_all (p : Nat → Bool) (a b : List Nat)
    (ha : ∀ x ∈ a, p x = true) : (a ++ b).takeWhile p = a ++ b.takeWhile p := by
  induction a with
  | nil => simp
  | cons x xs ih =>
    simp only [List.cons_append, List.takeWhile_cons]
    rw [ha x (by simp)]
    simp only [if_true, List.cons.injEq, true_and]
    exact ih (fun y hy => ha y (by simp [hy]))

theorem takeWhile_ne_zero_replicate (k : Nat) :
    (List.replicate k 0).takeWhile (fun c => c ≠ 0) = [] := by
  cases k with
  | zero => rfl
  | succ k => simp [List.replicate_succ, List.takeWhile_cons]

theorem read_utf16_le_units (name : List Nat) (ig : Bool)
    (hval : ∀ c ∈ name, ValidScalar c) (hnz : ∀ c ∈ name, c ≠ 0)
    (hlen : (utf16_encode name).length ≤ 36) :
    read_utf16_le (utf16_units name) ig = .ok name := by
  unfold utf16_units
  rw [List.take_of_length_le hlen]
  have hd : utf16_decode (utf16_encode name ++
      List.replicate (36 - (utf16_encode name).length) 0) =
      some (name ++ List.replicate (36 - (utf16_encode name).length) 0) := by
    rw [utf16_decode_encode_append name _ hval, utf16_decode_replicate_zero]
    rfl
  unfold read_utf16_le
  rw [hd]
  simp only
  rw [takeWhile_append_all _ _ _ (fun x hx => by simp [hnz x hx]),
    takeWhile_ne_zero_replicate, List.append_nil]

theorem readU16s_of_serialized (img' : Image) (off : Nat) (name : List Nat)
    (h : readBytes img' off 72 = write_utf16_le name)
    (hval : ∀ c ∈ name, ValidScalar c) :
    readU16s img' off 36 = utf16_units name := by
  apply List.ext_getElem
  · simp [readU16s, length_utf16_units]
  · intro i h1 h2
    have hi : i < 36 := by simpa [readU16s] using h1
    have hg : (readU16s img' off 36)[i] = readLE img' (off + 2 * i) 2 := by
      simp [readU16s]
    rw [hg]
    have hslice : readBytes img' (off + 2 * i) 2 =
        (((readBytes img' off 72).drop (2 * i)).take 2) := by
      exact readBytes_sub img' off 72 (2 * i) 2 (by omega)
    have hju := join_uniform_slice (leBytes 2) 2 (utf16_units name)
      (fun x _ => length_leBytes 2 x) i (by rw [length_utf16_units]; exact hi)
    unfold readLE
    rw [hslice, h, write_utf16_le_eq_units, hju, leToNat_leBytes]
    have hiu : i < (utf16_units name).length := by
      rw [length_utf16_units]
      exact hi
    have hu := utf16_units_lt name hval ((utf16_units name)[i])
      (by exact List.getElem_mem _)
    have : (utf16_units name)[i] % 256 ^ 2 = (utf16_units name)[i] := by
      apply Nat.mod_eq_of_lt
      norm_num at hu ⊢
      omega
    rw [this]

/-- Parsing a slot back from its serialized 128 bytes recovers the slot. -/
theorem parse_serialize_entry (img' : Image) (off : Nat) (ig : Bool)
    (slot : Option PartitionEntry) (hwf : SlotWF slot)
    (hbytes : readBytes img' off 128 =
      serialize_entry (slot.getD PartitionEntry.empty)) :
    parse_entry img' off ig = .ok slot := by
  have hsub : ∀ k m, k + m ≤ 128 → readBytes img' (off + k) m =
      ((serialize_entry (slot.getD PartitionEntry.empty)).drop k).take m := by
    intro k m hkm
    rw [readBytes_sub img' off 128 k m hkm, hbytes]
  have hsub0 : ∀ m, m ≤ 128 → readBytes img' off m =
      (serialize_entry (slot.getD PartitionEntry.empty)).take m := by
    intro m hm
    have := hsub 0 m (by omega)
    simpa using this
  cases slot with
  | none =>
    simp only [Option.getD_none, serialize_entry_empty] at hsub hsub0
    have h0 : readBytes img' off 16 = List.replicate 16 0 := by
      rw [hsub0 16 (by omega)]
      simp
    have h56 : readBytes img' (off + 56) 72 = List.replicate 72 0 := by
      rw [hsub 56 72 (by omega)]
      simp
    have hu : readU16s img' (off + 56) 36 = utf16_units [] := by
      apply readU16s_of_serialized img' (off + 56) []
      · rw [h56]
        decide
      · simp
    have hname : read_utf16_le (utf16_units []) ig = .ok [] :=
      read_utf16_le_units [] ig (by simp) (by simp) (by simp [utf16_encode])
    unfold parse_entry
    simp only
    rw [hu, hname]
    simp only
    rw [h0]
    rw [if_pos (by decide)]
  | some e =>
    have hwf' : EntryWF e := hwf
    obtain ⟨ht16, htnil, hi16, hs64, he64, hf64, hval, hnz, helen⟩ := hwf'
    simp only [Option.getD_some] at hsub hsub0
    have h0 : readBytes img' off 16 = write_uuid e.part_type := by
      rw [hsub0 16 (by omega)]
      exact serEntfield_0 e ht16 hi16
    have h16 : readBytes img' (off + 16) 16 = write_uuid e.part_id := by
      rw [hsub 16 16 (by omega)]
      exact serEntfield_16 e ht16 hi16
    have h32 : readBytes img' (off + 32) 8 = leBytes 8 e.start.val := by
      rw [hsub 32 8 (by omega)]
      exact serEntfield_32 e ht16 hi16
    have h40 : readBytes img' (off + 40) 8 = leBytes 8 e.end_.val := by
      rw [hsub 40 8 (by omega)]
      exact serEntfield_40 e ht16 hi16
    have h48 : readBytes img' (off + 48) 8 = leBytes 8 e.flags := by
      rw [hsub 48 8 (by omega)]
      exact serEntfield_48 e ht16 hi16
    have h56 : readBytes img' (off + 56) 72 = write_utf16_le e.name := by
      rw [hsub 56 72 (by omega)]
      exact serEntfield_56 e ht16 hi16
    have hu : readU16s img' (off + 56) 36 = utf16_units e.name :=
      readU16s_of_serialized img' (off + 56) e.name h56 hval
    have hname : read_utf16_le (utf16_units e.name) ig = .ok e.name :=
      read_utf16_le_units e.name ig hval hnz helen
    have htype : read_uuid (readBytes img' off 16) = e.part_type := by
      rw [h0]
      exact uuid_transform_involutive e.part_type ht16
    have hid : read_uuid (readBytes img' (off + 16) 16) = e.part_id := by
      rw [h16]
      exact uuid_transform_involutive e.part_id hi16
    have hstart : readLE img' (off + 32) 8 = e.start.val := by
      unfold readLE
      rw [h32, leToNat_leBytes]
      apply Nat.mod_eq_of_lt
      norm_num
      omega
    have hend : readLE img' (off + 40) 8 = e.end_.val := by
      unfold readLE
      rw [h40, leToNat_leBytes]
      apply Nat.mod_eq_of_lt
      norm_num
      omega
    have hflags : readLE img' (off + 48) 8 = e.flags := by
      unfold readLE
      rw [h48, leToNat_leBytes]
      apply Nat.mod_eq_of_lt
      norm_num
      omega
    unfold parse_entry
    simp only
    rw [hu, hname]
    simp only
    rw [htype, hid, hstart, hend, hflags]
    rw [if_neg htnil]

theorem length_serialize_entry_slot (s : Option PartitionEntry) (hwf : SlotWF s) :
    (serialize_entry (s.getD PartitionEntry.empty)).length = 128 := by
  cases s with
  | none =>
    simp only [Option.getD_none]
    rw [serialize_entry_empty]
    simp
  | some e =>
    simp only [Option.getD_some]
    exact length_serialize_entry e hwf.1 hwf.2.2.1

/-- Reading back a serialized entry array recovers the slot sequence. -/
theorem read_entries_of_serialized (img' : Image) (base : Nat) (ig : Bool)
    (slots : List (Option PartitionEntry)) (hwf : ∀ s ∈ slots, SlotWF s)
    (hbytes : readBytes img' base (128 * slots.length) =
      (slots.map (fun p => serialize_entry (p.getD PartitionEntry.empty))).join) :
    read_entries img' base ig slots.length = .ok slots := by
  induction slots generalizing base with
  | nil => rfl
  | cons s rest ih =>
    have hws : SlotWF s := hwf s (by simp)
    have hlens : (serialize_entry (s.getD PartitionEntry.empty)).length = 128 :=
      length_serialize_entry_slot s hws
    have hfirst : readBytes img' base 128 =
        serialize_entry (s.getD PartitionEntry.empty) := by
      have h0 := readBytes_sub img' base (128 * (s :: rest).length) 0 128
        (by simp only [List.length_cons]; omega)
      simp only [Nat.add_zero, List.drop_zero] at h0
      rw [h0, hbytes]
      simp only [List.map_cons, List.join_cons]
      exact List.take_left' hlens
    have hrest : readBytes img' (base + 128) (128 * rest.length) =
        (rest.map (fun p => serialize_entry (p.getD PartitionEntry.empty))).join := by
      have h0 := readBytes_sub img' base (128 * (s :: rest).length) 128
        (128 * rest.length) (by simp only [List.length_cons]; omega)
      rw [h0, hbytes]
      simp only [List.map_cons, List.join_cons]
      rw [List.drop_left' hlens]
      apply List.take_of_length_le
      rw [length_join_uniform _ 128 _ (fun y hy =>
        length_serialize_entry_slot y (hwf y (by simp [hy])))]
    have hps := parse_serialize_entry img' base ig s hws hfirst
    have hre := ih (base + 128) (fun y hy => hwf y (by simp [hy])) hrest
    show read_entries img' base ig (rest.length + 1) = .ok (s :: rest)
    unfold read_entries
    rw [hps, hre]

theorem read_entries_wf (img : Image) (off : Nat) (ig : Bool) (n : Nat)
    (parts : List (Option PartitionEntry)) (hv : validImage img)
    (h : read_entries img off ig n = .ok parts) : ∀ s ∈ parts, SlotWF s := by
  induction n generalizing off parts with
  | zero =>
    unfold read_entries at h
    injection h with h2
    subst h2
    simp
  | succ n ih =>
    unfold read_entries at h
    split at h
    · exact Except.noConfusion h
    · rename_i slot hps
      split at h
      · exact Except.noConfusion h
      · rename_i rest hre
        injection h with h2
        subst h2
        intro s hs
        rcases List.mem_cons.mp hs with rfl | hs
        · exact parse_entry_wf img off ig s hv hps
        · exact ih (off + 128) rest hre s hs

theorem read_entries_ok_length (img : Image) (off : Nat) (ig : Bool) (n : Nat)
    (parts : List (Option PartitionEntry))
    (h : read_entries img off ig n = .ok parts) : parts.length = n := by
  induction n generalizing off parts with
  | zero =>
    unfold read_entries at h
    injection h with h2
    subst h2
    rfl
  | succ n ih =>
    unfold read_entries at h
    split at h
    · exact Except.noConfusion h
    · split at h
      · exact Except.noConfusion h
      · rename_i rest hre
        injection h with h2
        subst h2
        simp [ih (off + 128) rest hre]

theorem parse_entry_congr (img1 img2 : Image) (off : Nat) (ig : Bool)
    (h : ∀ i, i < 128 → img1 (off + i) = img2 (off + i)) :
    parse_entry img1 off ig = parse_entry img2 off ig := by
  have hrb : ∀ k m, k + m ≤ 128 →
      readBytes img1 (off + k) m = readBytes img2 (off + k) m := by
    intro k m hkm
    apply readBytes_eq_of_agree
    intro i hi
    have := h (k + i) (by omega)
    rwa [← Nat.add_assoc] at this
  have hrb0 : readBytes img1 off 16 = readBytes img2 off 16 := by
    have := hrb 0 16 (by omega)
    simpa using this
  have hle : ∀ k m, k + m ≤ 128 →
      readLE img1 (off + k) m = readLE img2 (off + k) m := by
    intro k m hkm
    unfold readLE
    rw [hrb k m hkm]
  have hus : readU16s img1 (off + 56) 36 = readU16s img2 (off + 56) 36 := by
    unfold readU16s
    apply List.map_congr_left
    intro i hi
    have hi36 : i < 36 := List.mem_range.mp hi
    have := hle (56 + 2 * i) 2 (by omega)
    rwa [← Nat.add_assoc] at this
  unfold parse_entry
  rw [hrb0, hrb 16 16 (by omega), hle 32 8 (by omega), hle 40 8 (by omega),
    hle 48 8 (by omega), hus]

theorem read_entries_congr (img1 img2 : Image) (off : Nat) (ig : Bool) (n : Nat)
    (h : ∀ i, i < 128 * n → img1 (off + i) = img2 (off + i)) :
    read_entries img1 off ig n = read_entries img2 off ig n := by
  induction n generalizing off with
  | zero => rfl
  | succ n ih =>
    unfold read_entries
    rw [parse_entry_congr img1 img2 off ig (fun i hi => h i (by omega))]
    rw [ih (off + 128) (fun i hi => by
      have := h (128 + i) (by omega)
      rwa [← Nat.add_assoc] at this)]

theorem read_utf16_le_total (units : List Nat) :
    ∃ l, read_utf16_le units true = .ok l := by
  unfold read_utf16_le
  rcases hd : utf16_decode units with _ | cs
  · exact ⟨[], rfl⟩
  · exact ⟨cs.takeWhile (fun c => c ≠ 0), rfl⟩

theorem parse_entry_total (img : Image) (off : Nat) :
    ∃ slot, parse_entry img off true = .ok slot := by
  unfold parse_entry
  simp only
  rcases read_utf16_le_total (readU16s img (off + 56) 36) with ⟨l, hl⟩
  rw [hl]
  simp only
  by_cases hnil : read_uuid (readBytes img off 16) = List.replicate 16 0
  · exact ⟨none, by rw [if_pos hnil]⟩
  · exact ⟨some ⟨read_uuid (readBytes img off 16),
      read_uuid (readBytes img (off + 16) 16), Block.mk (readLE img (off + 32) 8),
      Block.mk (readLE img (off + 40) 8), readLE img (off + 48) 8, l⟩,
      by rw [if_neg hnil]⟩

theorem read_entries_total (img : Image) (off n : Nat) :
    ∃ parts, read_entries img off true n = .ok parts := by
  induction n generalizing off with
  | zero => exact ⟨[], rfl⟩
  | succ n ih =>
    rcases parse_entry_total img off with ⟨slot, hps⟩
    rcases ih (off + 128) with ⟨rest, hre⟩
    refine ⟨slot :: rest, ?_⟩
    unfold read_entries
    rw [hps, hre]

/-- Forward evaluation of `load` once all structural reads are known. -/
theorem load_eq_ok_of_reads (img : Image) (opts : GPTOptions)
    (parts : List (Option PartitionEntry))
    (hm : readBytes img opts.block_size 8 = GPT_MAGIC)
    (hrev : readBytes img (opts.block_size + 8) 4 = [0x00, 0x00, 0x01, 0x00])
    (hhl : readLE img (opts.block_size + 12) 4 = 92)
    (hps : readLE img (opts.block_size + 72) 8 = 2)
    (hsz : readLE img (opts.block_size + 84) 4 = 128)
    (hcrc : opts.ignore_csum = false →
      crc32 (zero_csum_field (readBytes img opts.block_size 92)) =
        readLE img (opts.block_size + 16) 4)
    (hpcrc : opts.ignore_csum = false →
      crc32 (readBytes img ((Block.mk 2).to_bytes opts.block_size)
        (128 * readLE img (opts.block_size + 80) 4)) =
          readLE img (opts.block_size + 88) 4)
    (hre : read_entries img ((Block.mk 2).to_bytes opts.block_size)
      opts.ignore_utf16_errors (readLE img (opts.block_size + 80) 4) = .ok parts) :
    GPTTable.load img opts = .ok
      { primary_gpt := ⟨readLE img (opts.block_size + 24) 8⟩,
        backup_gpt := ⟨readLE img (opts.block_size + 32) 8⟩,
        first_usable := ⟨readLE img (opts.block_size + 40) 8⟩,
        last_usable := ⟨readLE img (opts.block_size + 48) 8⟩,
        gpt_uuid := read_uuid (readBytes img (opts.block_size + 56) 16),
        partitions := parts,
        checksum := readLE img (opts.block_size + 16) 4 } := by
  unfold GPTTable.load
  simp only
  rw [hhl, hps, hsz]
  rw [if_neg (by rw [hm]; simp)]
  rw [if_neg (by rw [hrev]; simp)]
  rw [if_neg (by simp)]
  rw [if_neg (by simp)]
  rw [if_neg (by simp)]
  cases hic : opts.ignore_csum with
  | true =>
    rw [if_neg (by simp [hic])]
    rw [if_neg (by simp [hic])]
    rw [hre]
  | false =>
    rw [if_neg (by
      rw [hcrc hic]
      simp)]
    rw [if_neg (by
      rw [hpcrc hic]
      simp)]
    rw [hre]

theorem length_serialize_entries (t : GPTTable)
    (hwf : ∀ s ∈ t.partitions, SlotWF s) :
    (serialize_entries t).length = 128 * t.partitions.length := by
  unfold serialize_entries
  exact length_join_uniform _ 128 _
    (fun s hs => length_serialize_entry_slot s (hwf s hs))

theorem block2_to_bytes : (Block.mk 2).to_bytes 512 = 1024 := by decide

theorem block1_to_bytes : (Block.mk 1).to_bytes 512 = 512 := by decide

theorem load_wf (img : Image) (opts : GPTOptions) (t : GPTTable)
    (hv : validImage img) (h : GPTTable.load img opts = .ok t) : TableWF t := by
  obtain ⟨hm, hrev, hhl, hps, hsz, hcs, hre, ht⟩ := load_ok_inv img opts t h
  have hlen := read_entries_ok_length _ _ _ _ _ hre
  have hwfs := read_entries_wf _ _ _ _ _ hv hre
  have h256 : (256 : Nat) ^ 8 = 2 ^ 64 := by norm_num
  have h2564 : (256 : Nat) ^ 4 = 2 ^ 32 := by norm_num
  refine ⟨?_, ?_, ?_, ?_, ?_, ?_, hwfs⟩
  · rw [ht]
    have := readLE_lt img (opts.block_size + 24) 8 hv
    simp only
    omega
  · rw [ht]
    have := readLE_lt img (opts.block_size + 32) 8 hv
    simp only
    omega
  · rw [ht]
    have := readLE_lt img (opts.block_size + 40) 8 hv
    simp only
    omega
  · rw [ht]
    have := readLE_lt img (opts.block_size + 48) 8 hv
    simp only
    omega
  · rw [ht]
    simp only
    exact length_uuid_transform _ (by simp)
  · rw [hlen]
    have := readLE_lt img (opts.block_size + 80) 4 hv
    omega

theorem write_unfold (t : GPTTable) (img : Image)
    (hpos : t.primary_gpt = ⟨1⟩)
    (hdiv : t.partitions.length % 4 = 0)
    (hBlt : t.backup_gpt.val < 2 ^ 64)
    (hback : t.partitions.length * 128 / 512 ≤ t.backup_gpt.val)
    (hbound : (t.backup_gpt.val + 1) * 512 ≤ 2 ^ 64) :
    GPTTable.write t img GPTOptions.default = some
      (writeAt (writeAt (writeAt
        (writeAt (writeAt (writeAt img
          1024 (serialize_entries t))
          512 (List.replicate 512 0))
          512 (mk_header t true (Block.mk 2) (crc32 (serialize_entries t))))
        ((t.backup_gpt.val - t.partitions.length * 128 / 512) * 512)
          (serialize_entries t))
        (t.backup_gpt.val * 512) (List.replicate 512 0))
        (t.backup_gpt.val * 512)
        (mk_header t false (Block.sub t.backup_gpt ⟨t.partitions.length * 128 / 512⟩)
          (crc32 (serialize_entries t)))) := by
  obtain ⟨k, hk⟩ : ∃ k, t.partitions.length = 4 * k :=
    ⟨t.partitions.length / 4, by omega⟩
  have hpt : t.ptable_len t.partitions.length GPTOptions.default =
      some ⟨t.partitions.length * 128 / 512⟩ := by
    unfold GPTTable.ptable_len Block.from_bytes
    simp only [GPTOptions.default]
    rw [if_pos (by omega)]
  have hsubval : (Block.sub t.backup_gpt ⟨t.partitions.length * 128 / 512⟩).val =
      t.backup_gpt.val - t.partitions.length * 128 / 512 :=
    Block.sub_val_of_le _ _ hback hBlt
  have htb_backup : t.backup_gpt.to_bytes 512 = t.backup_gpt.val * 512 :=
    Block.to_bytes_of_lt _ _ (by omega)
  have htb_bstart : (Block.sub t.backup_gpt ⟨t.partitions.length * 128 / 512⟩).to_bytes
      512 = (t.backup_gpt.val - t.partitions.length * 128 / 512) * 512 := by
    rw [Block.to_bytes_of_lt _ _ (by
      rw [hsubval]
      have h1 : (t.backup_gpt.val - t.partitions.length * 128 / 512) * 512 ≤
          t.backup_gpt.val * 512 := Nat.mul_le_mul_right _ (by omega)
      omega), hsubval]
  have htb_primary : t.primary_gpt.to_bytes 512 = 512 := by
    rw [hpos]
    exact block1_to_bytes
  unfold GPTTable.write GPTTable.write_gpt
  rw [hpt]
  simp only [GPTOptions.default, if_true, if_false, Bool.false_eq_true, ite_true,
    ite_false]
  rw [block2_to_bytes, htb_primary, htb_backup, htb_bstart]

/-- Loading an image whose primary-header block (bytes 512–603) and
entry-array region (bytes 1024 on) hold a freshly serialized table
recovers that table, with the checksum field holding the newly computed
header CRC. -/
theorem load_after_write_core (t : GPTTable) (img3 : Image)
    (twf : TableWF t)
    (hhdr : readBytes img3 512 92 =
      mk_header t true (Block.mk 2) (crc32 (serialize_entries t)))
    (hent : readBytes img3 1024 (128 * t.partitions.length) = serialize_entries t) :
    GPTTable.load img3 GPTOptions.default = .ok
      { t with checksum := crc32 (mk_header_zero_csum t true (Block.mk 2)
          (crc32 (serialize_entries t))) } := by
  obtain ⟨hP64, hB64, hF64, hL64, huuid, hlen32, hwfs⟩ := twf
  have hsub : ∀ k m, k + m ≤ 92 → readBytes img3 (512 + k) m =
      ((mk_header t true (Block.mk 2) (crc32 (serialize_entries t))).drop k).take m := by
    intro k m hkm
    rw [readBytes_sub img3 512 92 k m hkm, hhdr]
  have h2564 : (256 : Nat) ^ 4 = 2 ^ 32 := by norm_num
  have h2568 : (256 : Nat) ^ 8 = 2 ^ 64 := by norm_num
  have hm : readBytes img3 512 8 = GPT_MAGIC := by
    have h0 := hsub 0 8 (by omega)
    simp only [Nat.add_zero, List.drop_zero] at h0
    rw [h0]
    exact hdrfield_0 t true _ _ huuid
  have hrev : readBytes img3 (512 + 8) 4 = [0x00, 0x00, 0x01, 0x00] := by
    rw [hsub 8 4 (by omega), hdrfield_mid t true _ _ huuid 8 4 (by omega)]
    exact hdr0field_8 t true _ _ huuid
  have hhl : readLE img3 (512 + 12) 4 = 92 := by
    unfold readLE
    rw [hsub 12 4 (by omega), hdrfield_mid t true _ _ huuid 12 4 (by omega),
      hdr0field_12 t true _ _ huuid, leToNat_leBytes]
    norm_num
  have hps : readLE img3 (512 + 72) 8 = 2 := by
    unfold readLE
    rw [hsub 72 8 (by omega), hdrdrop_ge_20 t true _ _ huuid 72 (by omega),
      hdr0field_72 t true _ _ huuid, leToNat_leBytes]
    norm_num
  have hsz : readLE img3 (512 + 84) 4 = 128 := by
    unfold readLE
    rw [hsub 84 4 (by omega), hdrdrop_ge_20 t true _ _ huuid 84 (by omega),
      hdr0field_84 t true _ _ huuid, leToNat_leBytes]
    norm_num
  have hcount : readLE img3 (512 + 80) 4 = t.partitions.length := by
    unfold readLE
    rw [hsub 80 4 (by omega), hdrdrop_ge_20 t true _ _ huuid 80 (by omega),
      hdr0field_80 t true _ _ huuid, leToNat_leBytes, h2564]
    omega
  have hcs_eq : readLE img3 (512 + 16) 4 =
      crc32 (mk_header_zero_csum t true (Block.mk 2) (crc32 (serialize_entries t))) := by
    unfold readLE
    rw [hsub 16 4 (by omega), hdrfield_16 t true _ _ huuid, leToNat_leBytes, h2564]
    exact Nat.mod_eq_of_lt (crc32_lt _)
  have hcrc : crc32 (zero_csum_field (readBytes img3 512 92)) =
      readLE img3 (512 + 16) 4 := by
    rw [hhdr, hdr_zero_csum t true _ _ huuid, hcs_eq]
  have hpcrc : crc32 (readBytes img3 1024 (128 * readLE img3 (512 + 80) 4)) =
      readLE img3 (512 + 88) 4 := by
    rw [hcount, hent]
    unfold readLE
    rw [hsub 88 4 (by omega), hdrdrop_ge_20 t true _ _ huuid 88 (by omega),
      hdr0field_88 t true _ _ huuid, leToNat_leBytes, h2564]
    exact (Nat.mod_eq_of_lt (crc32_lt _)).symm
  have hre0 : read_entries img3 1024 false t.partitions.length = .ok t.partitions :=
    read_entries_of_serialized img3 1024 false t.partitions hwfs hent
  have hre1 : read_entries img3 1024 false (readLE img3 (512 + 80) 4) =
      .ok t.partitions := by
    rw [hcount]
    exact hre0
  have hmy : readLE img3 (512 + 24) 8 = t.primary_gpt.val := by
    unfold readLE
    rw [hsub 24 8 (by omega), hdrdrop_ge_20 t true _ _ huuid 24 (by omega),
      hdr0field_24 t true _ _ huuid, if_pos rfl, leToNat_leBytes, h2568]
    exact Nat.mod_eq_of_lt hP64
  have hother : readLE img3 (512 + 32) 8 = t.backup_gpt.val := by
    unfold readLE
    rw [hsub 32 8 (by omega), hdrdrop_ge_20 t true _ _ huuid 32 (by omega),
      hdr0field_32 t true _ _ huuid, if_pos rfl, leToNat_leBytes, h2568]
    exact Nat.mod_eq_of_lt hB64
  have hfirst : readLE img3 (512 + 40) 8 = t.first_usable.val := by
    unfold readLE
    rw [hsub 40 8 (by omega), hdrdrop_ge_20 t true _ _ huuid 40 (by omega),
      hdr0field_40 t true _ _ huuid, leToNat_leBytes, h2568]
    exact Nat.mod_eq_of_lt hF64
  have hlast : readLE img3 (512 + 48) 8 = t.last_usable.val := by
    unfold readLE
    rw [hsub 48 8 (by omega), hdrdrop_ge_20 t true _ _ huuid 48 (by omega),
      hdr0field_48 t true _ _ huuid, leToNat_leBytes, h2568]
    exact Nat.mod_eq_of_lt hL64
  have huuid_eq : read_uuid (readBytes img3 (512 + 56) 16) = t.gpt_uuid := by
    rw [hsub 56 16 (by omega), hdrdrop_ge_20 t true _ _ huuid 56 (by omega),
      hdr0field_56 t true _ _ huuid]
    exact uuid_transform_involutive t.gpt_uuid huuid
  have happ := load_eq_ok_of_reads img3 GPTOptions.default t.partitions hm hrev hhl
    hps hsz (fun _ => hcrc) (fun _ => hpcrc) hre1
  simp only [GPTOptions.default] at happ ⊢
  rw [happ, hmy, hother, hfirst, hlast, huuid_eq, hcs_eq]

/-- C1: for every `GPTTable` loaded (with checksum verification) from a
well-formed image — primary header at block 1, slot count a multiple of 4
(so the entry-array byte length converts to blocks, a `ptable_len`
precondition), backup header beyond the primary structures, all offsets
below the `u64` wrap — writing the table and re-loading from the same
stream succeeds and yields a table equal in every logical field: header
locations, usable range, disk UUID, the full slot sequence including
empty slots, with the checksum field holding the freshly recomputed
header CRC. -/
theorem gpt_load_write_load_roundtrip (img : Image) (t : GPTTable)
    (hv : validImage img)
    (hload : GPTTable.load img GPTOptions.default = .ok t)
    (hpos : t.primary_gpt = ⟨1⟩)
    (hdiv : t.partitions.length % 4 = 0)
    (hback : 2 + 2 * (t.partitions.length * 128 / 512) ≤ t.backup_gpt.val)
    (hbound : (t.backup_gpt.val + 1) * 512 ≤ 2 ^ 64) :
    ∃ img2, GPTTable.write t img GPTOptions.default = some img2 ∧
      GPTTable.load img2 GPTOptions.default = .ok
        { t with checksum := crc32 (mk_header_zero_csum t true (Block.mk 2)
            (crc32 (serialize_entries t))) } := by
  have twf := load_wf img GPTOptions.default t hv hload
  obtain ⟨hP64, hB64, hF64, hL64, huuid, hlen32, hwfs⟩ := twf
  obtain ⟨k, hk⟩ : ∃ k, t.partitions.length = 4 * k :=
    ⟨t.partitions.length / 4, by omega⟩
  have hLk : t.partitions.length * 128 / 512 = k := by rw [hk]; omega
  have hback' : 2 + 2 * k ≤ t.backup_gpt.val := by rw [hLk] at hback; exact hback
  have hw := write_unfold t img hpos hdiv hB64 (by omega) hbound
  rw [hLk] at hw
  have hHlen : (mk_header t true (Block.mk 2) (crc32 (serialize_entries t))).length
      = 92 := hdrlen t true _ _ huuid
  have hHblen : (mk_header t false (Block.sub t.backup_gpt ⟨k⟩)
      (crc32 (serialize_entries t))).length = 92 := hdrlen t false _ _ huuid
  have hElen : (serialize_entries t).length = 128 * t.partitions.length :=
    length_serialize_entries t hwfs
  have hBge : 1024 + 1024 * k ≤ t.backup_gpt.val * 512 := by
    have h := Nat.mul_le_mul_right 512 hback'
    calc 1024 + 1024 * k = (2 + 2 * k) * 512 := by ring
      _ ≤ t.backup_gpt.val * 512 := h
  have hBkge : 1024 + 512 * k ≤ (t.backup_gpt.val - k) * 512 := by
    have hBk : 2 + k ≤ t.backup_gpt.val - k := by omega
    have h := Nat.mul_le_mul_right 512 hBk
    calc 1024 + 512 * k = (2 + k) * 512 := by ring
      _ ≤ (t.backup_gpt.val - k) * 512 := h
  set E := serialize_entries t with hEdef
  set H := mk_header t true (Block.mk 2) (crc32 E) with hHdef
  set Hb := mk_header t false (Block.sub t.backup_gpt ⟨k⟩) (crc32 E) with hHbdef
  set B := t.backup_gpt.val with hBdef
  set i1 := writeAt img 1024 E with hi1
  set i2 := writeAt i1 512 (List.replicate 512 0) with hi2
  set i3 := writeAt i2 512 H with hi3
  set i4 := writeAt i3 ((B - k) * 512) E with hi4
  set i5 := writeAt i4 (B * 512) (List.replicate 512 0) with hi5
  set i6 := writeAt i5 (B * 512) Hb with hi6
  refine ⟨i6, hw, ?_⟩
  apply load_after_write_core t i6
    ⟨hP64, hB64, hF64, hL64, huuid, hlen32, hwfs⟩
  · rw [hi6, readBytes_writeAt_of_disjoint i5 (B * 512) Hb 512 92
      (Or.inl (by omega))]
    rw [hi5, readBytes_writeAt_of_disjoint i4 (B * 512) (List.replicate 512 0)
      512 92 (Or.inl (by omega))]
    rw [hi4, readBytes_writeAt_of_disjoint i3 ((B - k) * 512) E 512 92
      (Or.inl (by omega))]
    rw [hi3, ← hHlen]
    exact readBytes_writeAt_eq i2 512 H
  · have h128 : 128 * t.partitions.length = E.length := hElen.symm
    rw [hi6, readBytes_writeAt_of_disjoint i5 (B * 512) Hb 1024
      (128 * t.partitions.length) (Or.inl (by rw [hk]; omega))]
    rw [hi5, readBytes_writeAt_of_disjoint i4 (B * 512) (List.replicate 512 0)
      1024 (128 * t.partitions.length) (Or.inl (by rw [hk]; omega))]
    rw [hi4, readBytes_writeAt_of_disjoint i3 ((B - k) * 512) E 1024
      (128 * t.partitions.length) (Or.inl (by rw [hk]; omega))]
    rw [hi3, readBytes_writeAt_of_disjoint i2 512 H 1024
      (128 * t.partitions.length) (Or.inr (by rw [hHlen]; omega))]
    rw [hi2, readBytes_writeAt_of_disjoint i1 512 (List.replicate 512 0) 1024
      (128 * t.partitions.length) (Or.inr (by simp))]
    rw [hi1, h128]
    exact readBytes_writeAt_eq img 1024 E

theorem leBytes_lt (n v : Nat) : ∀ b ∈ leBytes n v, b < 256 := by
  induction n generalizing v with
  | zero => simp [leBytes]
  | succ n ih =>
    intro b hb
    unfold leBytes at hb
    rcases List.mem_cons.mp hb with rfl | hb
    · exact Nat.mod_lt v (by norm_num)
    · exact ih (v / 256) b hb

theorem validImage_writeAt (img : Image) (off : Nat) (l : List Nat)
    (hi : validImage img) (hl : ∀ b ∈ l, b < 256) : validImage (writeAt img off l) := by
  intro n
  unfold writeAt
  split
  · rename_i h
    rw [List.getD_eq_getElem _ _ (by omega)]
    exact hl _ (List.getElem_mem _)
  · exact hi n

theorem mem_imgGpt0Hdr_lt : ∀ b ∈ imgGpt0Hdr, b < 256 := by
  intro b hb
  unfold imgGpt0Hdr at hb
  have hfull : ∀ x ∈ hdrZeroCsum, x < 256 := by decide
  rcases List.mem_append.mp hb with hb | hb
  · exact hfull b ((List.take_prefix _ _).mem hb)
  · rcases List.mem_append.mp hb with hb | hb
    · exact leBytes_lt 4 _ b hb
    · exact hfull b ((List.drop_suffix _ _).mem hb)

theorem validImage_imgGpt0 : validImage imgGpt0 := by
  unfold imgGpt0
  exact validImage_writeAt _ _ _ (fun n => by norm_num) mem_imgGpt0Hdr_lt

theorem load_imgGpt0 : GPTTable.load imgGpt0 GPTOptions.default = .ok tableGpt0 := by
  have hzc : hdrZeroCsum = mk_header_zero_csum tableGpt0 true (Block.mk 2) 0 := by
    decide
  have hcrc0 : crc32 (serialize_entries tableGpt0) = 0 := by decide
  have huuid : tableGpt0.gpt_uuid.length = 16 := by decide
  have twf : TableWF tableGpt0 := by
    refine ⟨by decide, by decide, by decide, by decide, huuid, by decide, ?_⟩
    intro s hs
    simp [tableGpt0] at hs
  have h1 : imgGpt0Hdr = mk_header tableGpt0 true (Block.mk 2) 0 := by
    unfold imgGpt0Hdr mk_header
    rw [hzc]
  have hlen92 : imgGpt0Hdr.length = 92 := by
    rw [h1]
    exact hdrlen tableGpt0 true _ _ huuid
  have hhdr : readBytes imgGpt0 512 92 = mk_header tableGpt0 true (Block.mk 2)
      (crc32 (serialize_entries tableGpt0)) := by
    rw [hcrc0, ← h1]
    unfold imgGpt0
    rw [← hlen92]
    exact readBytes_writeAt_eq _ 512 imgGpt0Hdr
  have hent : readBytes imgGpt0 1024 (128 * tableGpt0.partitions.length) =
      serialize_entries tableGpt0 := rfl
  have happ := load_after_write_core tableGpt0 imgGpt0 twf hhdr hent
  rw [happ, hcrc0, ← hzc]
  rfl

/-- Witness for C1: on the concrete image `imgGpt0` (all zeros except a
valid empty-table header at block 1) the loaded table writes back and
reloads successfully. -/
theorem gpt_load_write_load_roundtrip_witness :
    GPTTable.load imgGpt0 GPTOptions.default = .ok tableGpt0 ∧
    ∃ img2, GPTTable.write tableGpt0 imgGpt0 GPTOptions.default = some img2 ∧
      GPTTable.load img2 GPTOptions.default = .ok
        { tableGpt0 with checksum := crc32 (mk_header_zero_csum tableGpt0 true
            (Block.mk 2) (crc32 (serialize_entries tableGpt0))) } :=
  ⟨load_imgGpt0,
   gpt_load_write_load_roundtrip imgGpt0 tableGpt0 validImage_imgGpt0 load_imgGpt0
     rfl (by decide) (by decide) (by decide)⟩

/-- C6 counterexample: a zero-slot table loads successfully from `imgGpt0`,
and on it `set_partition 0`/`delete_partition 0` panic (the `len() - 1`
guard underflows) instead of returning `InvalidID`. -/
theorem set_partition_empty_counterexample :
    GPTTable.load imgGpt0 GPTOptions.default = .ok tableGpt0 ∧
    tableGpt0.partitions.length = 0 ∧
    tableGpt0.set_partition 0 sampleEntry = SetResult.panicked ∧
    tableGpt0.delete_partition 0 = SetResult.panicked ∧
    tableGpt0.set_partition 0 sampleEntry ≠ SetResult.invalidId := by
  refine ⟨load_imgGpt0, rfl, ?_, ?_, ?_⟩ <;> decide

/-!
## Single-byte corruption (claim C4)
-/

theorem zero_csum_field_readBytes (img : Image) (b : Nat) :
    zero_csum_field (readBytes img b 92) =
      readBytes img b 16 ++ ([0, 0, 0, 0] ++ readBytes img (b + 20) 72) := by
  unfold zero_csum_field
  have h1 : readBytes img b 16 = (readBytes img b 92).take 16 := by
    have h := readBytes_sub img b 92 0 16 (by omega)
    simpa using h
  have h2 : readBytes img (b + 20) 72 = (readBytes img b 92).drop 20 := by
    have h := readBytes_sub img b 92 20 72 (by omega)
    rw [List.take_of_length_le (by simp)] at h
    exact h
  rw [h1, h2]

theorem length_zero_csum_field (img : Image) (b : Nat) :
    (zero_csum_field (readBytes img b 92)).length = 92 := by
  rw [zero_csum_field_readBytes]
  simp

theorem zero_csum_field_updByte (img : Image) (b p v : Nat)
    (hp1 : b + 20 ≤ p) (hp2 : p < b + 92) :
    zero_csum_field (readBytes (updByte img p v) b 92) =
      (zero_csum_field (readBytes img b 92)).set (p - b) v := by
  rw [zero_csum_field_readBytes, zero_csum_field_readBytes]
  rw [readBytes_updByte_of_ne img p v b 16 (by omega)]
  rw [readBytes_updByte_of_mem img p v (b + 20) 72 (by omega) (by omega)]
  rw [List.set_append, if_neg (by rw [length_readBytes]; omega)]
  rw [List.set_append, if_neg (by simp; omega)]
  simp only [length_readBytes, List.length_cons, List.length_nil]
  have hidx : p - b - 16 - (0 + 1 + 1 + 1 + 1) = p - (b + 20) := by omega
  rw [hidx]

theorem zero_csum_field_getD (img : Image) (b i : Nat) (h1 : 20 ≤ i) (h2 : i < 92) :
    (zero_csum_field (readBytes img b 92)).getD i 0 = img (b + i) := by
  rw [zero_csum_field_readBytes]
  rw [List.getD_append_right _ _ _ _ (by simp; omega)]
  rw [List.getD_append_right _ _ _ _ (by simp; omega)]
  simp only [length_readBytes, List.length_cons, List.length_nil]
  have hb : i - 16 - (0 + 1 + 1 + 1 + 1) < (readBytes img (b + 20) 72).length := by
    simp
    omega
  rw [List.getD_eq_getElem _ _ hb]
  have h := readBytes_getElem img (b + 20) 72 (i - 16 - (0 + 1 + 1 + 1 + 1)) hb
  rw [h]
  congr 1
  omega

/-- Forward evaluation of `load` into the header `ChecksumError` branch. -/
theorem load_header_csum_mismatch (img : Image) (opts : GPTOptions)
    (hm : readBytes img opts.block_size 8 = GPT_MAGIC)
    (hrev : readBytes img (opts.block_size + 8) 4 = [0x00, 0x00, 0x01, 0x00])
    (hhl : readLE img (opts.block_size + 12) 4 = 92)
    (hps : readLE img (opts.block_size + 72) 8 = 2)
    (hsz : readLE img (opts.block_size + 84) 4 = 128)
    (hic : opts.ignore_csum = false)
    (hcrc : crc32 (zero_csum_field (readBytes img opts.block_size 92)) ≠
      readLE img (opts.block_size + 16) 4) :
    GPTTable.load img opts = .error .ChecksumError := by
  unfold GPTTable.load
  simp only
  rw [hhl, hps, hsz]
  rw [if_neg (by rw [hm]; simp)]
  rw [if_neg (by rw [hrev]; simp)]
  rw [if_neg (by simp)]
  rw [if_neg (by simp)]
  rw [if_neg (by simp)]
  rw [if_pos ⟨hic, hcrc⟩]

/-- Forward evaluation of `load` into the entry-array `ChecksumError`
branch (the header checksum itself verifies). -/
theorem load_entries_csum_mismatch (img : Image) (opts : GPTOptions)
    (hm : readBytes img opts.block_size 8 = GPT_MAGIC)
    (hrev : readBytes img (opts.block_size + 8) 4 = [0x00, 0x00, 0x01, 0x00])
    (hhl : readLE img (opts.block_size + 12) 4 = 92)
    (hps : readLE img (opts.block_size + 72) 8 = 2)
    (hsz : readLE img (opts.block_size + 84) 4 = 128)
    (hic : opts.ignore_csum = false)
    (hcrc : crc32 (zero_csum_field (readBytes img opts.block_size 92)) =
      readLE img (opts.block_size + 16) 4)
    (hpcrc : crc32 (readBytes img ((Block.mk 2).to_bytes opts.block_size)
      (128 * readLE img (opts.block_size + 80) 4)) ≠
        readLE img (opts.block_size + 88) 4) :
    GPTTable.load img opts = .error .ChecksumError := by
  unfold GPTTable.load
  simp only
  rw [hhl, hps, hsz]
  rw [if_neg (by rw [hm]; simp)]
  rw [if_neg (by rw [hrev]; simp)]
  rw [if_neg (by simp)]
  rw [if_neg (by simp)]
  rw [if_neg (by simp)]
  rw [if_neg (by rw [hcrc]; simp)]
  rw [if_pos ⟨hic, hpcrc⟩]

set_option maxHeartbeats 4000000 in
/-- C4 (amended): corrupt one byte of an image that `load` (with
verification) accepts, at position `p`, changing its value to `v`.
(1) If `p` lies in the CRC-protected header bytes that no structural
check consumes first — offsets 532–583 (reserved, locations, usable
range, disk UUID) or 592–595 (partition count) — `load` with
verification fails with `ChecksumError`; (2) likewise for any `p` inside
the 128·count-byte entry array at 1024; (3) with `ignore_csum` set a
header corruption in 532–583 loads successfully; (4) with `ignore_csum`
and `ignore_utf16_errors` set an entry-array corruption loads
successfully.  (Corrupting the magic, version, header-size, entry-start,
or entry-size fields instead fails with `NoTable`/`InvalidVersion`/
`InvalidHeader`, not `ChecksumError` — see the counterexample.) -/
theorem gpt_checksum_detects_corruption (img : Image) (t : GPTTable) (p v : Nat)
    (hload : GPTTable.load img GPTOptions.default = .ok t)
    (hvi : validImage img) (hv256 : v < 256) (hne : v ≠ img p) :
    ((532 ≤ p ∧ p < 584) ∨ (592 ≤ p ∧ p < 596) →
      GPTTable.load (updByte img p v) GPTOptions.default = .error .ChecksumError) ∧
    (1024 ≤ p ∧ p < 1024 + 128 * t.partitions.length →
      GPTTable.load (updByte img p v) GPTOptions.default = .error .ChecksumError) ∧
    (532 ≤ p ∧ p < 584 →
      ∃ t2, GPTTable.load (updByte img p v)
        { block_size := 512, ignore_csum := true, ignore_utf16_errors := false } =
          .ok t2) ∧
    (1024 ≤ p ∧ p < 1024 + 128 * t.partitions.length →
      ∃ t2, GPTTable.load (updByte img p v)
        { block_size := 512, ignore_csum := true, ignore_utf16_errors := true } =
          .ok t2) := by
  obtain ⟨hm, hrev, hhl, hps, hsz, hcs, hre, ht⟩ :=
    load_ok_inv img GPTOptions.default t hload
  simp only [GPTOptions.default] at hm hrev hhl hps hsz hcs hre
  obtain ⟨hcrc1, hcrc2⟩ := hcs trivial
  rw [block2_to_bytes] at hcrc2 hre
  have hcount : t.partitions.length = readLE img (512 + 80) 4 :=
    read_entries_ok_length _ _ _ _ _ hre
  have hrB : ∀ base m, p < base ∨ base + m ≤ p →
      readBytes (updByte img p v) base m = readBytes img base m :=
    fun base m h => readBytes_updByte_of_ne img p v base m h
  have hrLE : ∀ base m, p < base ∨ base + m ≤ p →
      readLE (updByte img p v) base m = readLE img base m := by
    intro base m h
    unfold readLE
    rw [hrB base m h]
  have hmodne : v % 256 ≠ img p % 256 := by
    rw [Nat.mod_eq_of_lt hv256, Nat.mod_eq_of_lt (hvi p)]
    exact hne
  refine ⟨?_, ?_, ?_, ?_⟩
  · intro hp
    have hm' : readBytes (updByte img p v) 512 8 = GPT_MAGIC := by
      rw [hrB 512 8 (by omega)]
      exact hm
    have hrev' : readBytes (updByte img p v) (512 + 8) 4 = [0x00, 0x00, 0x01, 0x00] := by
      rw [hrB (512 + 8) 4 (by omega)]
      exact hrev
    have hhl' : readLE (updByte img p v) (512 + 12) 4 = 92 := by
      rw [hrLE (512 + 12) 4 (by omega)]
      exact hhl
    have hps' : readLE (updByte img p v) (512 + 72) 8 = 2 := by
      rw [hrLE (512 + 72) 8 (by omega)]
      exact hps
    have hsz' : readLE (updByte img p v) (512 + 84) 4 = 128 := by
      rw [hrLE (512 + 84) 4 (by omega)]
      exact hsz
    have hj : p - 512 < (zero_csum_field (readBytes img 512 92)).length := by
      rw [length_zero_csum_field]
      omega
    have hel : (zero_csum_field (readBytes img 512 92))[p - 512] = img p := by
      rw [← List.getD_eq_getElem _ 0 hj]
      have hg := zero_csum_field_getD img 512 (p - 512) (by omega) (by omega)
      rw [hg]
      congr 1
      omega
    have hcrc' : crc32 (zero_csum_field (readBytes (updByte img p v) 512 92)) ≠
        readLE (updByte img p v) (512 + 16) 4 := by
      rw [zero_csum_field_updByte img 512 p v (by omega) (by omega)]
      rw [hrLE (512 + 16) 4 (by omega)]
      rw [← hcrc1]
      apply crc32_set_ne _ _ _ hj
      rw [hel]
      exact hmodne
    exact load_header_csum_mismatch (updByte img p v) GPTOptions.default
      hm' hrev' hhl' hps' hsz' rfl hcrc'
  · intro hp
    have hplen : p < 1024 + 128 * readLE img (512 + 80) 4 := by
      have h2 := hp.2
      rw [hcount] at h2
      exact h2
    have hm' : readBytes (updByte img p v) 512 8 = GPT_MAGIC := by
      rw [hrB 512 8 (by omega)]
      exact hm
    have hrev' : readBytes (updByte img p v) (512 + 8) 4 = [0x00, 0x00, 0x01, 0x00] := by
      rw [hrB (512 + 8) 4 (by omega)]
      exact hrev
    have hhl' : readLE (updByte img p v) (512 + 12) 4 = 92 := by
      rw [hrLE (512 + 12) 4 (by omega)]
      exact hhl
    have hps' : readLE (updByte img p v) (512 + 72) 8 = 2 := by
      rw [hrLE (512 + 72) 8 (by omega)]
      exact hps
    have hsz' : readLE (updByte img p v) (512 + 84) 4 = 128 := by
      rw [hrLE (512 + 84) 4 (by omega)]
      exact hsz
    have hcrc1' : crc32 (zero_csum_field (readBytes (updByte img p v) 512 92)) =
        readLE (updByte img p v) (512 + 16) 4 := by
      rw [hrB 512 92 (by omega), hrLE (512 + 16) 4 (by omega)]
      exact hcrc1
    have hcnt' : readLE (updByte img p v) (512 + 80) 4 = readLE img (512 + 80) 4 :=
      hrLE (512 + 80) 4 (by omega)
    have hj2 : p - 1024 < (readBytes img 1024 (128 * readLE img (512 + 80) 4)).length := by
      rw [length_readBytes]
      omega
    have hel2 : (readBytes img 1024 (128 * readLE img (512 + 80) 4))[p - 1024] =
        img p := by
      have h := readBytes_getElem img 1024 (128 * readLE img (512 + 80) 4) (p - 1024)
        hj2
      rw [h]
      congr 1
      omega
    have hpcrc' : crc32 (readBytes (updByte img p v) ((Block.mk 2).to_bytes 512)
        (128 * readLE (updByte img p v) (512 + 80) 4)) ≠
          readLE (updByte img p v) (512 + 88) 4 := by
      rw [hcnt', hrLE (512 + 88) 4 (by omega), block2_to_bytes]
      rw [readBytes_updByte_of_mem img p v 1024 (128 * readLE img (512 + 80) 4)
        (by omega) (by omega)]
      rw [← hcrc2]
      apply crc32_set_ne _ _ _ hj2
      rw [hel2]
      exact hmodne
    exact load_entries_csum_mismatch (updByte img p v) GPTOptions.default
      hm' hrev' hhl' hps' hsz' rfl hcrc1' hpcrc'
  · intro hp
    have hm' : readBytes (updByte img p v) 512 8 = GPT_MAGIC := by
      rw [hrB 512 8 (by omega)]
      exact hm
    have hrev' : readBytes (updByte img p v) (512 + 8) 4 = [0x00, 0x00, 0x01, 0x00] := by
      rw [hrB (512 + 8) 4 (by omega)]
      exact hrev
    have hhl' : readLE (updByte img p v) (512 + 12) 4 = 92 := by
      rw [hrLE (512 + 12) 4 (by omega)]
      exact hhl
    have hps' : readLE (updByte img p v) (512 + 72) 8 = 2 := by
      rw [hrLE (512 + 72) 8 (by omega)]
      exact hps
    have hsz' : readLE (updByte img p v) (512 + 84) 4 = 128 := by
      rw [hrLE (512 + 84) 4 (by omega)]
      exact hsz
    have hcnt' : readLE (updByte img p v) (512 + 80) 4 = readLE img (512 + 80) 4 :=
      hrLE (512 + 80) 4 (by omega)
    have hre' : read_entries (updByte img p v) 1024 false
        (readLE (updByte img p v) (512 + 80) 4) = .ok t.partitions := by
      rw [hcnt']
      rw [read_entries_congr (updByte img p v) img 1024 false
        (readLE img (512 + 80) 4) (fun i hi => by
          simp only [updByte]
          rw [if_neg (by omega)])]
      exact hre
    exact ⟨_, load_eq_ok_of_reads (updByte img p v)
      { block_size := 512, ignore_csum := true, ignore_utf16_errors := false }
      t.partitions hm' hrev' hhl' hps' hsz' (fun hx => absurd hx (by decide))
      (fun hx => absurd hx (by decide)) hre'⟩
  · intro hp
    have hm' : readBytes (updByte img p v) 512 8 = GPT_MAGIC := by
      rw [hrB 512 8 (by omega)]
      exact hm
    have hrev' : readBytes (updByte img p v) (512 + 8) 4 = [0x00, 0x00, 0x01, 0x00] := by
      rw [hrB (512 + 8) 4 (by omega)]
      exact hrev
    have hhl' : readLE (updByte img p v) (512 + 12) 4 = 92 := by
      rw [hrLE (512 + 12) 4 (by omega)]
      exact hhl
    have hps' : readLE (updByte img p v) (512 + 72) 8 = 2 := by
      rw [hrLE (512 + 72) 8 (by omega)]
      exact hps
    have hsz' : readLE (updByte img p v) (512 + 84) 4 = 128 := by
      rw [hrLE (512 + 84) 4 (by omega)]
      exact hsz
    obtain ⟨parts, hparts⟩ := read_entries_total (updByte img p v) 1024
      (readLE (updByte img p v) (512 + 80) 4)
    exact ⟨_, load_eq_ok_of_reads (updByte img p v)
      { block_size := 512, ignore_csum := true, ignore_utf16_errors := true }
      parts hm' hrev' hhl' hps' hsz' (fun hx => absurd hx (by decide))
      (fun hx => absurd hx (by decide)) hparts⟩

/-- C4 counterexample: corrupting the first magic byte of a well-formed
image (a header-region byte, both stored checksum fields untouched) makes
`load` fail with `NoTable`, not `ChecksumError`, and setting
`ignore_csum` does not make the load succeed either. -/
theorem gpt_corruption_counterexample :
    GPTTable.load imgGpt0 GPTOptions.default = .ok tableGpt0 ∧
    GPTTable.load (updByte imgGpt0 512 0) GPTOptions.default =
      .error .NoTable ∧
    GPTTable.load (updByte imgGpt0 512 0)
      { block_size := 512, ignore_csum := true, ignore_utf16_errors := false } =
        .error .NoTable ∧
    ErrorType.NoTable ≠ ErrorType.ChecksumError := by
  refine ⟨load_imgGpt0, ?_, ?_, by decide⟩ <;> decide

/-- Witness for C4 (amended) on `imgGpt0`, flipping the reserved header
byte at offset 532 to 1. -/
theorem gpt_checksum_detects_corruption_witness :
    GPTTable.load (updByte imgGpt0 532 1) GPTOptions.default =
      .error .ChecksumError ∧
    ∃ t2, GPTTable.load (updByte imgGpt0 532 1)
      { block_size := 512, ignore_csum := true, ignore_utf16_errors := false } =
        .ok t2 :=
  ⟨(gpt_checksum_detects_corruption imgGpt0 tableGpt0 532 1 load_imgGpt0
      validImage_imgGpt0 (by decide) (by decide)).1 (Or.inl (by decide)),
   (gpt_checksum_detects_corruption imgGpt0 tableGpt0 532 1 load_imgGpt0
      validImage_imgGpt0 (by decide) (by decide)).2.2.1 (by decide)⟩
